import Mathlib

/-!
# go-tamboon: the donation pipeline of `go-tamboon.go`

A shallow embedding of `src/go-tamboon.go`.

* Go strings are byte sequences (`GoString`).
* `int` and `int64` are modelled as `Int` with explicit wrap-around to the
  64-bit two's-complement range (`wrapInt64`); a 64-bit platform is assumed,
  so that `int(x)` is the identity on `int64` values.
* Run-time panics are values of `Fault`; a function that can panic returns
  `Except Fault _`.
* The payment gateway (`omise.Client`) is a parameter: a `Client` gives, for
  each request, the result value the call leaves behind and whether it
  returned an error; `makeDonation` drops the error and uses the value.
  Every invocation of `makeDonation` builds its own client, so every
  invocation takes its own `Client`.
* The goroutines are modelled twice: run one after the other (`runBatch`,
  `GetPromise`), and as concurrent workers that step through the statements
  on shared data in any interleaving (`Conc`).
* The Go standard-library functions used by the program (`strings.Split`,
  `strconv.ParseInt`, `strconv.Atoi`, `sort.Ints`, `bufio.Scanner`,
  `strings.Reader`) are modelled from their documented behaviour.
-/

namespace Tamboon

/-! ## Basic types -/

/-- A Go `byte`. -/
abbrev Byte := UInt8

/-- A Go `string`: a sequence of bytes. -/
abbrev GoString := List Byte

/-- The Go string written as an ASCII literal. -/
def ascii (s : String) : GoString := s.toList.map (fun c => c.toNat.toUInt8)

/-- Run-time panics of the Go program. -/
inductive Fault where
  /-- Panic `index out of range [index] with length length`. -/
  | indexOutOfRange (index length : Nat)
  /-- Panic `invalid memory address or nil pointer dereference`. -/
  | nilDereference
  /-- Panic `integer divide by zero`. -/
  | divideByZero
  /-- Fatal error `all goroutines are asleep`: a wait that never ends. -/
  | deadlock
  deriving DecidableEq, Repr

deriving instance DecidableEq for Except

/-! ## 64-bit integer arithmetic -/

/-- Smallest `int64`. -/
def minInt64 : Int := -(2 ^ 63)

/-- Largest `int64`. -/
def maxInt64 : Int := 2 ^ 63 - 1

/-- Largest `uint64`. -/
def maxUint64 : Nat := 2 ^ 64 - 1

/-- Reduction of a mathematical integer to the two's-complement `int64` that
Go's wrapping arithmetic produces. -/
def wrapInt64 (x : Int) : Int := (x + 2 ^ 63) % 2 ^ 64 - 2 ^ 63

/-- Go `a + b` on `int64`. -/
def addInt64 (a b : Int) : Int := wrapInt64 (a + b)

/-- Go `a - b` on `int64`. -/
def subInt64 (a b : Int) : Int := wrapInt64 (a - b)

/-- Go `a / b` on `int64`: truncated division, panics on a zero divisor. -/
def divInt64 (a b : Int) : Except Fault Int :=
  if b = 0 then .error .divideByZero else .ok (wrapInt64 (Int.tdiv a b))

/-- The value lies in the `int64` range. -/
def InInt64 (x : Int) : Prop := minInt64 ≤ x ∧ x ≤ maxInt64

instance (x : Int) : Decidable (InInt64 x) := by
  unfold InInt64; infer_instance

/-! ## Standard library: `strings.Split`, `strconv.ParseInt`, `strconv.Atoi` -/

/-- Go `strings.Split(s, sep)` for a one-byte separator: the substrings between
the separators; a string without separator (the empty one too) gives one
field. -/
def Split (sep : Byte) : GoString → List GoString
  | [] => [[]]
  | c :: cs =>
    if c = sep then [] :: Split sep cs
    else
      match Split sep cs with
      | [] => [[c]]
      | h :: t => (c :: h) :: t

/-- The `Err` field of a `*strconv.NumError`. -/
inductive NumError where
  | ErrSyntax
  | ErrRange
  deriving DecidableEq, Repr

/-- The digit loop of `strconv.ParseUint(s, 10, 64)`; `n` is the value read so
far.  A byte that is not a decimal digit ends the loop with a syntax error
and value 0; an overflow ends it with a range error and the largest value. -/
def parseUintLoop : GoString → Nat → Nat × Option NumError
  | [], n => (n, none)
  | c :: cs, n =>
    if 48 ≤ c ∧ c ≤ 57 then
      if n ≥ maxUint64 / 10 + 1 then (maxUint64, some .ErrRange)
      else
        let n1 := n * 10 + (c - 48).toNat
        if n1 > maxUint64 then (maxUint64, some .ErrRange)
        else parseUintLoop cs n1
    else (0, some .ErrSyntax)

/-- Go `strconv.ParseUint(s, 10, 64)`: the value and the error. -/
def ParseUint (s : GoString) : Nat × Option NumError :=
  match s with
  | [] => (0, some .ErrSyntax)
  | _ => parseUintLoop s 0

/-- Go `strconv.ParseInt(s, 10, 64)`: the value and the error.  On a syntax
error the value is 0; on a range error it is the nearest `int64`. -/
def ParseInt (s : GoString) : Int × Option NumError :=
  match s with
  | [] => (0, some .ErrSyntax)
  | c :: cs =>
    let neg := decide (c = 45)
    let digits := if c = 43 ∨ c = 45 then cs else s
    match ParseUint digits with
    | (_, some .ErrSyntax) => (0, some .ErrSyntax)
    | (un, _) =>
      if ¬ neg ∧ un ≥ 2 ^ 63 then (maxInt64, some .ErrRange)
      else if neg ∧ un > 2 ^ 63 then (minInt64, some .ErrRange)
      else (if neg then - (un : Int) else (un : Int), none)

/-- Go `strconv.Atoi(s)`; `int` has 64 bits, so it agrees with `ParseInt`. -/
def Atoi (s : GoString) : Int × Option NumError := ParseInt s

/-! ## The ranking table: `map[int]string` -/

/-- A Go `map[int]string`, as the list of its entries. -/
abbrev GoMap := List (Int × GoString)

/-- The keys of the map. -/
def mapKeys (m : GoMap) : List Int := m.map Prod.fst

/-- The map holds each key once. -/
def MapWF (m : GoMap) : Prop := (mapKeys m).Nodup

instance (m : GoMap) : Decidable (MapWF m) := by
  unfold MapWF; infer_instance

/-- Lookup `v, ok := m[k]`. -/
def mapGet : GoMap → Int → Option GoString
  | [], _ => none
  | (k', v) :: m, k => if k' = k then some v else mapGet m k

/-- The expression `m[k]`: the zero value `""` for an absent key. -/
def mapIndex (m : GoMap) (k : Int) : GoString := (mapGet m k).getD []

/-- The assignment `m[k] = v`. -/
def mapSet : GoMap → Int → GoString → GoMap
  | [], k, v => [(k, v)]
  | (k', v') :: m, k, v =>
    if k' = k then (k, v) :: m else (k', v') :: mapSet m k v

/-! ## The payment gateway -/

/-- The request `operations.CreateToken`, the fields the program sets. -/
structure CreateToken where
  Name : GoString
  Number : GoString
  ExpirationMonth : Int
  ExpirationYear : Int
  deriving DecidableEq, Repr

/-- The request `operations.CreateCharge`, the fields the program sets. -/
structure CreateCharge where
  Amount : Int
  Currency : GoString
  Card : GoString
  deriving DecidableEq, Repr

/-- The result `omise.Token`, the field the program reads. -/
structure Token where
  ID : GoString
  deriving DecidableEq, Repr

/-- The result `omise.Charge`, the field the program reads. -/
structure Charge where
  Amount : Int
  deriving DecidableEq, Repr

/-- A request sent to the gateway by `client.Do`. -/
inductive GatewayCall where
  | createToken (op : CreateToken)
  | createCharge (op : CreateCharge)
  deriving DecidableEq, Repr

/-- What a call `client.Do(result, operation)` leaves behind: the value of
`result` after the call (the program passes in a zero value) and whether the
error returned is non-nil.  A failing call may leave the zero value, but it
may also return its error after it has filled the result. -/
structure DoResult (α : Type) where
  result : α
  failed : Bool

/-- The gateway as seen through `client.Do`: what each request leaves behind. -/
structure Client where
  DoCreateToken : CreateToken → DoResult Token
  DoCreateCharge : CreateCharge → DoResult Charge

/-! ## Program state -/

/-- Donor information. -/
structure CreateDonor where
  Name : GoString
  AmountSubUnit : Int
  Currency : GoString
  CCNumber : GoString
  ExpMonth : Int
  ExpYear : Int
  deriving DecidableEq, Repr

/-- The `Promise` object; `wg` is the counter of its `sync.WaitGroup`. -/
structure Promise where
  wg : Int
  total : Int
  donated : Int
  deriving DecidableEq, Repr

/-- The state `makeDonation` works on: the promise it is given, the global
ranking table `top_donors.m`, and the requests sent to the gateway so far. -/
structure Shared where
  p : Promise
  top_donors : GoMap
  gateway : List GatewayCall
  deriving DecidableEq, Repr

/-- The state at program start: a zero `Promise` and an empty table. -/
def Shared.fresh : Shared := { p := ⟨0, 0, 0⟩, top_donors := [], gateway := [] }

/-! ## `newDonor` and `makeDonation` -/

/-- Creates a new donor. -/
def newDonor (name : GoString) (amt : Int) (curr : GoString) (cc : GoString)
    (expmonth : Int) (expyear : Int) : CreateDonor :=
  ⟨name, amt, curr, cc, expmonth, expyear⟩

/-- The slice index expression `xs[i]`. -/
def index (xs : List GoString) (i : Nat) : Except Fault GoString :=
  match xs.get? i with
  | some x => .ok x
  | none => .error (.indexOutOfRange i xs.length)

/-- Make a donation.  `omise.NewClient` is given the two constant keys, which
it accepts; `client` is the client it returns. -/
def makeDonation (client : Client) (str : GoString) (s : Shared) : Except Fault Shared := do
  let donor_info := Split 44 str
  let amt := (ParseInt (← index donor_info 1)).1
  let cc_expmonth := (Atoi (← index donor_info 4)).1
  let cc_expyear := (Atoi (← index donor_info 5)).1
  let donor := newDonor (← index donor_info 0) amt (ascii "thb") (← index donor_info 2)
    cc_expmonth cc_expyear
  let createToken : CreateToken :=
    { Name := donor.Name, Number := donor.CCNumber,
      ExpirationMonth := donor.ExpMonth, ExpirationYear := donor.ExpYear }
  -- the error of `client.Do(token, createToken)` is dropped
  let token : Token := (client.DoCreateToken createToken).result
  let createCharge : CreateCharge :=
    { Amount := donor.AmountSubUnit, Currency := donor.Currency, Card := token.ID }
  -- the error of `client.Do(charge, createCharge)` is dropped
  let charge : Charge := (client.DoCreateCharge createCharge).result
  let top_donors := mapSet s.top_donors charge.Amount donor.Name
  let total := addInt64 s.p.total donor.AmountSubUnit
  let donated := addInt64 s.p.donated charge.Amount
  pure { p := { s.p with total := total, donated := donated },
         top_donors := top_donors,
         gateway := s.gateway ++ [.createToken createToken, .createCharge createCharge] }

/-! ## `pickTopDonors` -/

/-- Go `sort.Ints`: the keys in increasing order. -/
def sortInts (keys : List Int) : List Int := keys.insertionSort (· ≤ ·)

/-- The loop `for _, k := range keys` of `pickTopDonors`; the effect of the
callback `f` is a state transformer on `σ`. -/
def pickLoop {σ : Type} (m : GoMap) (f : Int → GoString → σ → σ) : List Int → Int → σ → σ
  | [], _, s => s
  | k :: ks, count, s =>
    if count < (m.length : Int) - 3 then pickLoop m f ks (count + 1) s
    else pickLoop m f ks count (f k (mapIndex m k) s)

/-- Pick top 3 donors. -/
def pickTopDonors {σ : Type} (m : GoMap) (count : Int) (f : Int → GoString → σ → σ) (s : σ) : σ :=
  let keys := sortInts (mapKeys m)
  pickLoop m f keys count s

/-- A callback that records the arguments of each of its invocations. -/
def recordCall (k : Int) (v : GoString) (calls : List (Int × GoString)) : List (Int × GoString) :=
  calls ++ [(k, v)]

/-- The invocations of the callback made by `pickTopDonors(m, count, f)`, in order. -/
def pickTopDonorsCalls (m : GoMap) (count : Int) : List (Int × GoString) :=
  pickTopDonors m count recordCall []

/-! ## Readers and `lineCounter` -/

/-- The error of a `Read`. -/
inductive ReadError where
  | EOF
  | other
  deriving DecidableEq, Repr

/-- What one call `r.Read(buf)` delivers: the bytes `buf[:c]` and the error. -/
structure ReadResult where
  data : GoString
  err : Option ReadError
  deriving DecidableEq, Repr

/-- An `io.Reader`, as the results of its successive `Read` calls; once they
are used up, `Read` returns `0, io.EOF`. -/
abbrev Reader := List ReadResult

/-- Go `bytes.Count` for a one-byte separator: the number of its occurrences. -/
def bytesCount (b : GoString) (sep : Byte) : Nat := b.count sep

/-- The loop of `lineCounter`, with the count so far. -/
def lineCounterLoop : Reader → Int → Int × Option ReadError
  | [], count => (count, none)
  | r :: rs, count =>
    let count := count + bytesCount r.data 10
    match r.err with
    | some .EOF => (count, none)
    | some .other => (count, some .other)
    | none => lineCounterLoop rs count

/-- Count number of lines from a decrypted data.  The count is far from the
bounds of `int`, so it is kept as an unbounded integer. -/
def lineCounter (r : Reader) : Int × Option ReadError := lineCounterLoop r 0

/-- The pieces of `s` of `b` bytes each (the last one may be shorter). -/
def chunksAux (b : Nat) : Nat → GoString → List GoString
  | 0, _ => []
  | fuel + 1, s => if s = [] then [] else s.take b :: chunksAux b fuel (s.drop b)

/-- A `strings.Reader` on `s` read through a buffer of `bufLen` bytes: each
`Read` delivers the next `bufLen` bytes, or what is left of `s`. -/
def stringsReader (bufLen : Nat) (s : GoString) : Reader :=
  (chunksAux bufLen s.length s).map (fun d => ⟨d, none⟩)

/-! ## `bufio.Scanner` -/

/-- The constant `bufio.MaxScanTokenSize`. -/
def MaxScanTokenSize : Nat := 64 * 1024

/-- The helper `dropCR` of `bufio.ScanLines`: a trailing `\r` is removed. -/
def dropCR (l : GoString) : GoString := if l.getLast? = some 13 then l.dropLast else l

/-- The lines a `bufio.Scanner` (split function `ScanLines`, default buffer)
delivers on `data`: the pieces between the `\n` bytes, a final empty piece
dropped; scanning stops at the first line that does not fit the buffer, that
is, one of `MaxScanTokenSize` bytes or more. -/
def scannerLines (data : GoString) : List GoString :=
  let segs := Split 10 data
  let segs := if segs.getLast? = some [] then segs.dropLast else segs
  (segs.takeWhile (fun l => l.length < MaxScanTokenSize)).map dropCR

/-! ## `GetPromise`, `Then` and `main` -/

/-- The globals of the program: `instance` (nil until `once.Do` has run),
`top_donors.m`, and the requests sent to the gateway so far. -/
structure Program where
  instancePromise : Option Promise
  top_donors : GoMap
  gateway : List GatewayCall
  deriving DecidableEq, Repr

/-- The globals at program start. -/
def Program.start : Program := { instancePromise := none, top_donors := [], gateway := [] }

/-- Get a singleton instance a Promise object. -/
def getInstance (w : Program) : Program :=
  match w.instancePromise with
  | some _ => w
  | none => { w with instancePromise := some ⟨0, 0, 0⟩ }

/-- Returns a promise object.  The goroutine it starts is run to its end at
once (a sequential schedule): `wg.Add(1)`, `makeDonation`, `wg.Done()`. -/
def GetPromise (client : Client) (str : GoString) (w : Program) : Except Fault Program := do
  let w := getInstance w
  let p := w.instancePromise.getD ⟨0, 0, 0⟩
  let p := { p with wg := p.wg + 1 }
  let s ← makeDonation client str ⟨p, w.top_donors, w.gateway⟩
  pure { instancePromise := some { s.p with wg := s.p.wg - 1 },
         top_donors := s.top_donors, gateway := s.gateway }

/-- Process callback when a promise returns; `p` is `none` for a nil pointer. -/
def Promise.Then {α : Type} (p : Option Promise) (r : Int → Int → Except Fault α) : Except Fault α :=
  match p with
  | none => .error .nilDereference
  | some p => if p.wg = 0 then r p.total p.donated else .error .deadlock

/-- The loop `for scanner.Scan() { p = GetPromise(scanner.Text()) }`: `i` is
the number of records dispatched before, `assigned` whether the local
variable `p` has been assigned. -/
def dispatchLoop (gateway : Nat → Client) :
    List GoString → Nat → Bool × Program → Except Fault (Bool × Program)
  | [], _, st => pure st
  | line :: rest, i, (_, w) => do
    let w ← GetPromise (gateway i) line w
    dispatchLoop gateway rest (i + 1) (true, w)

/-- The summary the callback of `main` logs. -/
structure Report where
  total : Int
  donated : Int
  faulty_donations : Int
  avg : Int
  top : List GoString
  deriving DecidableEq, Repr

/-- The callback passed to `Then` in `main`. -/
def report (numlines : Int) (top_donors : GoMap) (total donated : Int) : Except Fault Report := do
  let faulty_donations := subInt64 total donated
  let avg ← divInt64 donated (wrapInt64 (numlines - 1))
  let top := pickTopDonors top_donors 0 (fun _ v logged => logged ++ [v]) []
  pure { total := total, donated := donated, faulty_donations := faulty_donations,
         avg := avg, top := top }

/-- Main func, from the decrypted data on; `gateway i` is the behaviour of the
gateway towards the worker of record `i`.  The result holds the number of
workers dispatched. -/
def main (gateway : Nat → Client) (decrypted : GoString) : Except Fault (Nat × Report) := do
  let numlines := (lineCounter (stringsReader (32 * 1024) decrypted)).1
  let lines := scannerLines decrypted
  -- the first `scanner.Scan()` skips the header
  let records := lines.drop 1
  let (assigned, w) ← dispatchLoop gateway records 0 (false, Program.start)
  let p := if assigned then w.instancePromise else none
  let r ← Promise.Then p (report numlines w.top_donors)
  pure (records.length, r)

/-! ## Batches of sequential invocations -/

/-- The invocations `makeDonation(str, p)` of a list of records, one after the
other; each record comes with the behaviour of the gateway towards it. -/
def runBatch : List (Client × GoString) → Shared → Except Fault Shared
  | [], s => pure s
  | (client, str) :: rest, s => do
    let s ← makeDonation client str s
    runBatch rest s

/-- Field `i` of a record, `""` when the record has no such field. -/
def field (str : GoString) (i : Nat) : GoString := (Split 44 str).getD i []

/-- The record has the six fields `makeDonation` reads. -/
def SixFields (str : GoString) : Prop := 6 ≤ (Split 44 str).length

instance (str : GoString) : Decidable (SixFields str) := by
  unfold SixFields; infer_instance

/-- The donor name of a record: `donor.Name`. -/
def donorName (str : GoString) : GoString := field str 0

/-- The requested amount of a record: `donor.AmountSubUnit`. -/
def requestedAmount (str : GoString) : Int := (ParseInt (field str 1)).1

/-- The token request `makeDonation` builds for a record. -/
def tokenRequest (str : GoString) : CreateToken :=
  { Name := field str 0, Number := field str 2,
    ExpirationMonth := (Atoi (field str 4)).1, ExpirationYear := (Atoi (field str 5)).1 }

/-- The variable `token` after `client.Do(token, createToken)`. -/
def tokenOf (client : Client) (str : GoString) : Token :=
  (client.DoCreateToken (tokenRequest str)).result

/-- The charge request `makeDonation` builds for a record. -/
def chargeRequest (client : Client) (str : GoString) : CreateCharge :=
  { Amount := requestedAmount str, Currency := ascii "thb", Card := (tokenOf client str).ID }

/-- The charged amount of a record, `charge.Amount`: what the call
`client.Do(charge, createCharge)` left in the charge, whatever its error. -/
def chargedAmount (client : Client) (str : GoString) : Int :=
  (client.DoCreateCharge (chargeRequest client str)).result.Amount

/-- The call `client.Do(charge, createCharge)` of a record returned an error. -/
def chargeFailed (client : Client) (str : GoString) : Bool :=
  (client.DoCreateCharge (chargeRequest client str)).failed

/-- The charged amount of a record when its charge succeeded, 0 when it
failed. -/
def succeededAmount (client : Client) (str : GoString) : Int :=
  if chargeFailed client str then 0 else chargedAmount client str

/-- The sum of `int64` values as Go computes it, with wrap-around. -/
def sumInt64 (xs : List Int) : Int := xs.foldl addInt64 0

/-- A donor name is present in the ranking table. -/
def Present (m : GoMap) (name : GoString) : Prop := ∃ k, mapGet m k = some name

/-! ## Concurrent workers

The goroutines started by `GetPromise` run `makeDonation` concurrently.  The
part of `makeDonation` before line 111 works on local variables only; from
there on each statement on shared data is one or two steps of the worker:
`top_donors.Lock()`, the table write, `top_donors.Unlock()`, and for each of
`p.total += ...` and `p.donated += ...` a read of the field followed by a
write of the sum. -/

/-- The program point of a worker. -/
inductive Pc where
  | lock
  | write
  | unlock
  | loadTotal
  | storeTotal
  | loadDonated
  | storeDonated
  | done
  deriving DecidableEq, Repr

/-- A worker: its program point, its local variables `donor.Name`,
`donor.AmountSubUnit` and `charge.Amount`, and the value it has read last. -/
structure Worker where
  pc : Pc
  name : GoString
  requested : Int
  charged : Int
  reg : Int
  deriving DecidableEq, Repr

/-- The shared data and the workers. -/
structure Conc where
  p : Promise
  top_donors : GoMap
  locked : Bool
  workers : List Worker
  deriving DecidableEq, Repr

/-- The worker of a record with six fields, at line 111, its gateway calls
done. -/
def Worker.ofRecord (client : Client) (str : GoString) : Worker :=
  { pc := .lock, name := donorName str, requested := requestedAmount str,
    charged := chargedAmount client str, reg := 0 }

/-- One step of worker `i`; `none` when it cannot move (no such worker, the
worker has finished, or it waits for the lock). -/
def Conc.step (i : Nat) (c : Conc) : Option Conc :=
  match c.workers.get? i with
  | none => none
  | some w =>
    match w.pc with
    | .lock =>
      if c.locked then none
      else some { c with locked := true, workers := c.workers.set i { w with pc := .write } }
    | .write =>
      some { c with top_donors := mapSet c.top_donors w.charged w.name,
                    workers := c.workers.set i { w with pc := .unlock } }
    | .unlock =>
      some { c with locked := false, workers := c.workers.set i { w with pc := .loadTotal } }
    | .loadTotal =>
      some { c with workers := c.workers.set i { w with pc := .storeTotal, reg := c.p.total } }
    | .storeTotal =>
      some { c with p := { c.p with total := addInt64 w.reg w.requested },
                    workers := c.workers.set i { w with pc := .loadDonated } }
    | .loadDonated =>
      some { c with workers := c.workers.set i { w with pc := .storeDonated, reg := c.p.donated } }
    | .storeDonated =>
      some { c with p := { c.p with donated := addInt64 w.reg w.charged },
                    workers := c.workers.set i { w with pc := .done } }
    | .done => none

/-- The run of a schedule: the workers step in the order listed. -/
def Conc.run : List Nat → Conc → Option Conc
  | [], c => some c
  | i :: rest, c =>
    match c.step i with
    | none => none
    | some c => Conc.run rest c

/-- The workers of a batch, started on the given shared data. -/
def Conc.start (batch : List (Client × GoString)) (s : Shared) : Conc :=
  { p := s.p, top_donors := s.top_donors, locked := false,
    workers := batch.map (fun r => Worker.ofRecord r.1 r.2) }

/-- Every worker has finished. -/
def Conc.finished (c : Conc) : Bool := c.workers.all (fun w => w.pc = .done)

/-- The worker has written `p.total`. -/
def Pc.pastTotal : Pc → Bool
  | .loadDonated => true
  | .storeDonated => true
  | .done => true
  | _ => false

/-- The worker has written `p.donated`. -/
def Pc.pastDonated : Pc → Bool
  | .done => true
  | _ => false

/-- The number of workers that have read `p.total` and not yet written it. -/
def Conc.inTotal (c : Conc) : Nat := c.workers.countP (fun w => w.pc = .storeTotal)

/-- The number of workers that have read `p.donated` and not yet written it. -/
def Conc.inDonated (c : Conc) : Nat := c.workers.countP (fun w => w.pc = .storeDonated)

/-- Along the schedule, at no time two workers are between their read and
their write of `p.total`. -/
def Conc.exclusiveTotal : List Nat → Conc → Bool
  | [], c => decide (c.inTotal ≤ 1)
  | i :: rest, c =>
    decide (c.inTotal ≤ 1) &&
      match c.step i with
      | none => true
      | some c => Conc.exclusiveTotal rest c

/-- Along the schedule, at no time two workers are between their read and
their write of `p.donated`. -/
def Conc.exclusiveDonated : List Nat → Conc → Bool
  | [], c => decide (c.inDonated ≤ 1)
  | i :: rest, c =>
    decide (c.inDonated ≤ 1) &&
      match c.step i with
      | none => true
      | some c => Conc.exclusiveDonated rest c

/-- The total agrees with the workers that have written it, and a worker
that has read it and not yet written it holds its current value. -/
def TotalInv (c : Conc) : Prop :=
  c.p.total =
      wrapInt64 (c.workers.map fun w => if w.pc.pastTotal then w.requested else 0).sum ∧
    ∀ w ∈ c.workers, w.pc = .storeTotal → w.reg = c.p.total

/-- The donated sum agrees with the workers that have written it, and a
worker that has read it and not yet written it holds its current value. -/
def DonatedInv (c : Conc) : Prop :=
  c.p.donated =
      wrapInt64 (c.workers.map fun w => if w.pc.pastDonated then w.charged else 0).sum ∧
    ∀ w ∈ c.workers, w.pc = .storeDonated → w.reg = c.p.donated

/-- The schedule that runs the workers `i`, `i + 1`, ..., `i + n - 1` one
after the other, each for its seven steps. -/
def sequentialSchedule : Nat → Nat → List Nat
  | _, 0 => []
  | i, n + 1 => List.replicate 7 i ++ sequentialSchedule (i + 1) n

/-! ## Closed forms used by the theorems -/

/-- The state after a completed invocation of `makeDonation`. -/
def Shared.after (client : Client) (str : GoString) (s : Shared) : Shared :=
  { p := { s.p with total := addInt64 s.p.total (requestedAmount str),
                    donated := addInt64 s.p.donated (chargedAmount client str) },
    top_donors := mapSet s.top_donors (chargedAmount client str) (donorName str),
    gateway := s.gateway ++
      [.createToken (tokenRequest str), .createCharge (chargeRequest client str)] }

/-- The last record of a run that was charged `k`, if there is one. -/
def lastCharged (run : List (Client × GoString)) (k : Int) : Option (Client × GoString) :=
  (run.filter (fun r => decide (chargedAmount r.1 r.2 = k))).getLast?

/-- The bytes a reader delivers up to its first error. -/
def delivered : Reader → GoString
  | [] => []
  | r :: rs =>
    match r.err with
    | none => r.data ++ delivered rs
    | some _ => r.data

/-- The state `makeDonation` sees when it is started from the globals. -/
def Program.toShared (w : Program) : Shared :=
  { p := w.instancePromise.getD ⟨0, 0, 0⟩, top_donors := w.top_donors, gateway := w.gateway }

/-- The globals that hold the given promise, table and gateway record. -/
def Program.ofShared (s : Shared) : Program :=
  { instancePromise := some s.p, top_donors := s.top_donors, gateway := s.gateway }

/-- The records dispatched by the loop of `main`, each with the gateway
behaviour it meets; `i` is the number of records dispatched before. -/
def withGateway (gateway : Nat → Client) : Nat → List GoString → List (Client × GoString)
  | _, [] => []
  | i, line :: rest => (gateway i, line) :: withGateway gateway (i + 1) rest

/-! ## Example gateways -/

/-- A gateway that accepts every card and charges the amount requested. -/
def acceptAll : Client :=
  { DoCreateToken := fun _ => ⟨⟨ascii "tokn_test"⟩, false⟩,
    DoCreateCharge := fun c => ⟨⟨c.Amount⟩, false⟩ }

/-- A gateway that rejects every card: `CreateToken` fails, and so does every
`CreateCharge`; both leave their result untouched. -/
def rejectAll : Client :=
  { DoCreateToken := fun _ => ⟨⟨[]⟩, true⟩, DoCreateCharge := fun _ => ⟨⟨0⟩, true⟩ }

/-- A gateway whose `CreateCharge` call returns an error after it has filled
the charge with the amount requested. -/
def failAfterFilling : Client :=
  { DoCreateToken := fun _ => ⟨⟨ascii "tokn_test"⟩, false⟩,
    DoCreateCharge := fun c => ⟨⟨c.Amount⟩, true⟩ }

/-! # Lemmas -/

/-! ## 64-bit arithmetic -/

theorem wrapInt64_of_inInt64 {x : Int} (h : InInt64 x) : wrapInt64 x = x := by
  unfold InInt64 minInt64 maxInt64 at h
  unfold wrapInt64
  omega

theorem inInt64_wrapInt64 (x : Int) : InInt64 (wrapInt64 x) := by
  unfold InInt64 minInt64 maxInt64 wrapInt64
  omega

theorem wrapInt64_add_left (a b : Int) : wrapInt64 (wrapInt64 a + b) = wrapInt64 (a + b) := by
  unfold wrapInt64
  omega

theorem wrapInt64_sub_wrap (a b : Int) :
    wrapInt64 (wrapInt64 a - wrapInt64 b) = wrapInt64 (a - b) := by
  unfold wrapInt64
  omega

theorem foldl_addInt64 (xs : List Int) (a : Int) :
    wrapInt64 (xs.foldl addInt64 a) = wrapInt64 (a + xs.sum) := by
  induction xs generalizing a with
  | nil => simp
  | cons x xs ih =>
    simp only [List.foldl_cons, List.sum_cons]
    rw [ih, addInt64, wrapInt64_add_left, add_assoc]

theorem foldl_addInt64_inInt64 (xs : List Int) (a : Int) (h : InInt64 a) :
    InInt64 (xs.foldl addInt64 a) := by
  induction xs generalizing a with
  | nil => simpa using h
  | cons x xs ih =>
    simp only [List.foldl_cons]
    exact ih _ (inInt64_wrapInt64 _)

theorem foldl_addInt64_eq (xs : List Int) (a : Int) (h : InInt64 a) :
    xs.foldl addInt64 a = wrapInt64 (a + xs.sum) := by
  rw [← foldl_addInt64, wrapInt64_of_inInt64 (foldl_addInt64_inInt64 xs a h)]

theorem sumInt64_eq (xs : List Int) : sumInt64 xs = wrapInt64 xs.sum := by
  unfold sumInt64
  rw [foldl_addInt64_eq xs 0 (by decide), zero_add]

theorem sum_nonneg_of_forall (xs : List Int) (h : ∀ x ∈ xs, 0 ≤ x) : 0 ≤ xs.sum := by
  induction xs with
  | nil => simp
  | cons x xs ih =>
    simp only [List.sum_cons]
    have h1 := h x (List.mem_cons_self _ _)
    have h2 := ih (fun y hy => h y (List.mem_cons_of_mem _ hy))
    omega

/-! ## `makeDonation` -/

theorem ParseInt_syntax_zero (s : GoString) (h : (ParseInt s).2 = some .ErrSyntax) :
    (ParseInt s).1 = 0 := by
  unfold ParseInt at h ⊢
  cases s with
  | nil => rfl
  | cons c cs =>
    simp only at h ⊢
    split
    · rfl
    · rename_i un e hne heq
      rw [heq] at h
      simp only at h
      split at h
      · simp at h
      · split at h <;> simp at h

theorem index_of_lt {xs : List GoString} {i : Nat} (h : i < xs.length) :
    index xs i = .ok (xs.getD i []) := by
  unfold index
  rw [List.getD_eq_getElem?_getD, List.get?_eq_getElem?, List.getElem?_eq_getElem h]
  simp

theorem index_of_ge {xs : List GoString} {i : Nat} (h : xs.length ≤ i) :
    index xs i = .error (.indexOutOfRange i xs.length) := by
  unfold index
  rw [List.get?_eq_getElem?, List.getElem?_eq_none h]

theorem makeDonation_ok (client : Client) (str : GoString) (s : Shared) (h : SixFields str) :
    makeDonation client str s = .ok (s.after client str) := by
  unfold SixFields at h
  unfold makeDonation
  simp only [index_of_lt (show 0 < (Split 44 str).length by omega),
    index_of_lt (show 1 < (Split 44 str).length by omega),
    index_of_lt (show 2 < (Split 44 str).length by omega),
    index_of_lt (show 4 < (Split 44 str).length by omega),
    index_of_lt (show 5 < (Split 44 str).length by omega)]
  simp only [bind, Except.bind, pure, Except.pure, Shared.after, newDonor, chargedAmount,
    chargeRequest, tokenOf, tokenRequest, requestedAmount, donorName, field]

theorem makeDonation_short (client : Client) (str : GoString) (s : Shared)
    (h : ¬ SixFields str) :
    ∃ i, i < 6 ∧
      makeDonation client str s = .error (.indexOutOfRange i (Split 44 str).length) := by
  unfold SixFields at h
  unfold makeDonation
  by_cases h1 : 1 < (Split 44 str).length
  · by_cases h4 : 4 < (Split 44 str).length
    · refine ⟨5, by omega, ?_⟩
      simp only [index_of_lt h1, index_of_lt h4,
        index_of_ge (show (Split 44 str).length ≤ 5 by omega), bind, Except.bind]
    · refine ⟨4, by omega, ?_⟩
      simp only [index_of_lt h1,
        index_of_ge (show (Split 44 str).length ≤ 4 by omega), bind, Except.bind]
  · refine ⟨1, by omega, ?_⟩
    simp only [index_of_ge (show (Split 44 str).length ≤ 1 by omega), bind, Except.bind]

/-- After a `CreateToken` call that left the token untouched, as a failed
call does, `makeDonation` still sends a `CreateCharge` request, for the
requested amount and with an empty card. -/
theorem makeDonation_charges_without_token (client : Client) (str : GoString) (s : Shared)
    (hsix : SixFields str)
    (hzero : (client.DoCreateToken (tokenRequest str)).result = ⟨[]⟩) :
    ∃ s', makeDonation client str s = .ok s' ∧
      s'.gateway = s.gateway ++ [.createToken (tokenRequest str),
        .createCharge ⟨requestedAmount str, ascii "thb", []⟩] := by
  refine ⟨_, makeDonation_ok client str s hsix, ?_⟩
  simp [Shared.after, chargeRequest, tokenOf, hzero]

/-! ## Batches -/

theorem runBatch_ok (run : List (Client × GoString)) (s : Shared)
    (h : ∀ r ∈ run, SixFields r.2) :
    runBatch run s = .ok (run.foldl (fun s r => s.after r.1 r.2) s) := by
  induction run generalizing s with
  | nil => rfl
  | cons r rest ih =>
    obtain ⟨client, str⟩ := r
    have h1 : SixFields str := h (client, str) (List.mem_cons_self _ _)
    have h2 : ∀ r ∈ rest, SixFields r.2 := fun r hr => h r (List.mem_cons_of_mem _ hr)
    simp only [runBatch, makeDonation_ok client str s h1, bind, Except.bind, List.foldl_cons]
    exact ih _ h2

theorem foldl_after_total (run : List (Client × GoString)) (s : Shared) :
    (run.foldl (fun s r => s.after r.1 r.2) s).p.total =
      (run.map (fun r => requestedAmount r.2)).foldl addInt64 s.p.total := by
  induction run generalizing s with
  | nil => rfl
  | cons r rest ih => simp only [List.foldl_cons, List.map_cons, ih]; rfl

theorem foldl_after_donated (run : List (Client × GoString)) (s : Shared) :
    (run.foldl (fun s r => s.after r.1 r.2) s).p.donated =
      (run.map (fun r => chargedAmount r.1 r.2)).foldl addInt64 s.p.donated := by
  induction run generalizing s with
  | nil => rfl
  | cons r rest ih => simp only [List.foldl_cons, List.map_cons, ih]; rfl

theorem foldl_after_wg (run : List (Client × GoString)) (s : Shared) :
    (run.foldl (fun s r => s.after r.1 r.2) s).p.wg = s.p.wg := by
  induction run generalizing s with
  | nil => rfl
  | cons r rest ih => rw [List.foldl_cons, ih]; rfl

theorem six_of_runBatch_ok (run : List (Client × GoString)) (s s' : Shared)
    (h : runBatch run s = .ok s') : ∀ r ∈ run, SixFields r.2 := by
  induction run generalizing s with
  | nil => intro r hr; simp at hr
  | cons r rest ih =>
    obtain ⟨client, str⟩ := r
    by_cases hsix : SixFields str
    · simp only [runBatch, makeDonation_ok client str s hsix, bind, Except.bind] at h
      intro r hr
      rcases List.mem_cons.mp hr with rfl | hr
      · exact hsix
      · exact ih _ h r hr
    · obtain ⟨i, _, hi⟩ := makeDonation_short client str s hsix
      simp [runBatch, hi, bind, Except.bind] at h

theorem runBatch_ok_iff (run : List (Client × GoString)) (s : Shared) :
    (∃ s', runBatch run s = .ok s') ↔ ∀ r ∈ run, SixFields r.2 :=
  ⟨fun ⟨s', h⟩ => six_of_runBatch_ok run s s' h, fun h => ⟨_, runBatch_ok run s h⟩⟩

theorem runBatch_eq_foldl (run : List (Client × GoString)) (s s' : Shared)
    (h : runBatch run s = .ok s') : s' = run.foldl (fun s r => s.after r.1 r.2) s := by
  rw [runBatch_ok run s (six_of_runBatch_ok run s s' h)] at h
  exact (Except.ok.inj h).symm

theorem foldl_sub_sum (run : List (Client × GoString)) :
    (run.map fun r => requestedAmount r.2).sum - (run.map fun r => chargedAmount r.1 r.2).sum
      = (run.map fun r => requestedAmount r.2 - chargedAmount r.1 r.2).sum := by
  induction run with
  | nil => rfl
  | cons r rest ih =>
    simp only [List.map_cons, List.sum_cons]
    omega

theorem report_facts (run : List (Client × GoString)) (total donated : Int)
    (ht : total = sumInt64 (run.map fun r => requestedAmount r.2))
    (hd : donated = sumInt64 (run.map fun r => chargedAmount r.1 r.2)) :
    donated = sumInt64 (run.map fun r => chargedAmount r.1 r.2) ∧
    ((∀ r ∈ run, chargeFailed r.1 r.2 = true → chargedAmount r.1 r.2 = 0) →
      donated = sumInt64 (run.map fun r => succeededAmount r.1 r.2)) ∧
    subInt64 total donated =
      wrapInt64 (run.map fun r => requestedAmount r.2 - chargedAmount r.1 r.2).sum ∧
    ((∀ r ∈ run, chargedAmount r.1 r.2 ≤ requestedAmount r.2) →
      (run.map fun r => requestedAmount r.2 - chargedAmount r.1 r.2).sum ≤ maxInt64 →
      0 ≤ subInt64 total donated) := by
  have hf : subInt64 total donated
      = wrapInt64 (run.map fun r => requestedAmount r.2 - chargedAmount r.1 r.2).sum := by
    rw [hd, ht, sumInt64_eq, sumInt64_eq, subInt64, wrapInt64_sub_wrap, foldl_sub_sum]
  refine ⟨hd, fun hzero => ?_, hf, fun hle hmax => ?_⟩
  · rw [hd]
    congr 1
    apply List.map_congr_left
    intro r hr
    unfold succeededAmount
    by_cases hfail : chargeFailed r.1 r.2 = true
    · rw [if_pos hfail, hzero r hr hfail]
    · rw [if_neg hfail]
  · rw [hf]
    have hnn : 0 ≤ (run.map fun r => requestedAmount r.2 - chargedAmount r.1 r.2).sum := by
      apply sum_nonneg_of_forall
      intro x hx
      obtain ⟨r, hr, rfl⟩ := List.mem_map.mp hx
      have := hle r hr
      omega
    rw [wrapInt64_of_inInt64]
    · exact hnn
    · unfold InInt64 minInt64
      exact ⟨by omega, hmax⟩

/-! ## The ranking table -/

theorem mapGet_mapSet (m : GoMap) (k : Int) (v : GoString) (k' : Int) :
    mapGet (mapSet m k v) k' = if k = k' then some v else mapGet m k' := by
  induction m with
  | nil => simp [mapSet, mapGet]
  | cons e m ih =>
    obtain ⟨k0, v0⟩ := e
    by_cases h0 : k0 = k
    · subst h0
      by_cases h1 : k0 = k' <;> simp [mapSet, mapGet, h1]
    · by_cases h1 : k = k'
      · subst h1
        simp [mapSet, mapGet, h0, ih]
      · simp [mapSet, mapGet, h0, ih, h1]

theorem mapKeys_mapSet (m : GoMap) (k : Int) (v : GoString) :
    mapKeys (mapSet m k v) = if k ∈ mapKeys m then mapKeys m else mapKeys m ++ [k] := by
  induction m with
  | nil => simp [mapSet, mapKeys]
  | cons e m ih =>
    obtain ⟨k0, v0⟩ := e
    unfold mapKeys at ih ⊢
    by_cases h0 : k0 = k
    · subst h0
      simp [mapSet]
    · have h0' : ¬ k = k0 := fun h => h0 h.symm
      by_cases hm : k ∈ List.map Prod.fst m
      · simp only [hm, if_true] at ih
        simp [mapSet, h0, ih, hm]
      · simp only [hm, if_false] at ih
        simp [mapSet, h0, ih, hm, h0']

theorem mapWF_mapSet (m : GoMap) (k : Int) (v : GoString) (h : MapWF m) :
    MapWF (mapSet m k v) := by
  unfold MapWF at h ⊢
  rw [mapKeys_mapSet]
  split
  · exact h
  · rename_i hk
    rw [List.nodup_append]
    refine ⟨h, List.nodup_singleton k, ?_⟩
    intro a ha hb
    simp only [List.mem_singleton] at hb
    subst hb
    exact hk ha

theorem foldl_after_top_donors_wf (run : List (Client × GoString)) (s : Shared)
    (h : MapWF s.top_donors) :
    MapWF (run.foldl (fun s r => s.after r.1 r.2) s).top_donors := by
  induction run generalizing s with
  | nil => exact h
  | cons r rest ih =>
    simp only [List.foldl_cons]
    exact ih _ (mapWF_mapSet _ _ _ h)

theorem getLast_cons_eq {α : Type} (a : α) (l : List α) :
    (a :: l).getLast? = match l.getLast? with
      | some b => some b
      | none => some a := by
  cases l with
  | nil => rfl
  | cons b l =>
    rw [List.getLast?_cons_cons]
    cases h : (b :: l).getLast? with
    | none => simp at h
    | some c => rfl

theorem foldl_after_mapGet (run : List (Client × GoString)) (s : Shared) (k : Int) :
    mapGet (run.foldl (fun s r => s.after r.1 r.2) s).top_donors k =
      match lastCharged run k with
      | some r => some (donorName r.2)
      | none => mapGet s.top_donors k := by
  induction run generalizing s with
  | nil => rfl
  | cons r rest ih =>
    rw [List.foldl_cons, ih]
    unfold lastCharged
    by_cases hr : chargedAmount r.1 r.2 = k
    · rw [List.filter_cons_of_pos (by simpa using hr), getLast_cons_eq]
      cases (List.filter (fun r => decide (chargedAmount r.1 r.2 = k)) rest).getLast? with
      | none =>
        show mapGet (mapSet s.top_donors (chargedAmount r.1 r.2) (donorName r.2)) k = _
        rw [mapGet_mapSet, if_pos hr]
      | some a => rfl
    · rw [List.filter_cons_of_neg (by simpa using hr)]
      cases (List.filter (fun r => decide (chargedAmount r.1 r.2 = k)) rest).getLast? with
      | none =>
        show mapGet (mapSet s.top_donors (chargedAmount r.1 r.2) (donorName r.2)) k = _
        rw [mapGet_mapSet, if_neg hr]
      | some a => rfl

theorem mapGet_of_mem_keys (m : GoMap) (k : Int) (h : k ∈ mapKeys m) :
    mapGet m k = some (mapIndex m k) := by
  unfold mapIndex
  induction m with
  | nil => simp [mapKeys] at h
  | cons e m ih =>
    obtain ⟨k0, v0⟩ := e
    by_cases h0 : k0 = k
    · simp [mapGet, h0]
    · have : k ∈ mapKeys m := by
        simp only [mapKeys, List.map_cons, List.mem_cons] at h
        rcases h with h | h
        · exact absurd h.symm h0
        · exact h
      simp only [mapGet, h0, if_false]
      exact ih this

theorem mapGet_of_mem (m : GoMap) (h : MapWF m) (k : Int) (v : GoString) (hm : (k, v) ∈ m) :
    mapGet m k = some v := by
  induction m with
  | nil => simp at hm
  | cons e m ih =>
    obtain ⟨k0, v0⟩ := e
    unfold MapWF mapKeys at h
    simp only [List.map_cons, List.nodup_cons] at h
    rcases List.mem_cons.mp hm with hm | hm
    · cases hm
      simp [mapGet]
    · have hne : k0 ≠ k := fun e => h.1 (e ▸ List.mem_map_of_mem Prod.fst hm)
      simp only [mapGet, hne, if_false]
      exact ih h.2 hm

theorem mapGet_none_of_not_mem (m : GoMap) (k : Int) (h : k ∉ mapKeys m) :
    mapGet m k = none := by
  induction m with
  | nil => rfl
  | cons e m ih =>
    obtain ⟨k0, v0⟩ := e
    simp only [mapKeys, List.map_cons, List.mem_cons, not_or] at h
    have h0 : ¬ k0 = k := fun e => h.1 e.symm
    simp only [mapGet, h0, if_false]
    exact ih h.2

theorem mapGet_perm (m m' : GoMap) (hp : m.Perm m') (hwf : MapWF m) (k : Int) :
    mapGet m k = mapGet m' k := by
  have hwf' : MapWF m' := (hp.map Prod.fst).nodup_iff.mp hwf
  by_cases hk : k ∈ mapKeys m
  · obtain ⟨⟨k1, v⟩, hmem, rfl⟩ := List.mem_map.mp hk
    rw [mapGet_of_mem m hwf k1 v hmem, mapGet_of_mem m' hwf' k1 v (hp.mem_iff.mp hmem)]
  · have hk' : k ∉ mapKeys m' := fun h => hk ((hp.map Prod.fst).mem_iff.mpr h)
    rw [mapGet_none_of_not_mem m k hk, mapGet_none_of_not_mem m' k hk']

/-! ## `pickTopDonors` -/

theorem pickLoop_eq {σ : Type} (m : GoMap) (f : Int → GoString → σ → σ) (ks : List Int)
    (count : Int) (s : σ) :
    pickLoop m f ks count s =
      (ks.drop ((m.length : Int) - 3 - count).toNat).foldl
        (fun s k => f k (mapIndex m k) s) s := by
  induction ks generalizing count s with
  | nil => simp [pickLoop]
  | cons k ks ih =>
    unfold pickLoop
    by_cases h : count < (m.length : Int) - 3
    · rw [if_pos h, ih]
      have : ((m.length : Int) - 3 - count).toNat
          = ((m.length : Int) - 3 - (count + 1)).toNat + 1 := by omega
      rw [this, List.drop_succ_cons]
    · rw [if_neg h, ih]
      have : ((m.length : Int) - 3 - count).toNat = 0 := by omega
      rw [this, List.drop_zero, List.drop_zero, List.foldl_cons]

theorem foldl_recordCall (m : GoMap) (ks : List Int) (acc : List (Int × GoString)) :
    ks.foldl (fun s k => recordCall k (mapIndex m k) s) acc =
      acc ++ ks.map (fun k => (k, mapIndex m k)) := by
  induction ks generalizing acc with
  | nil => simp
  | cons k ks ih =>
    rw [List.foldl_cons, ih, recordCall, List.map_cons, List.append_assoc]
    rfl

theorem pickTopDonorsCalls_eq (m : GoMap) :
    pickTopDonorsCalls m 0 =
      ((sortInts (mapKeys m)).drop (m.length - 3)).map (fun k => (k, mapIndex m k)) := by
  unfold pickTopDonorsCalls pickTopDonors
  simp only [pickLoop_eq, foldl_recordCall, List.nil_append]
  congr 2
  omega

theorem pickTopDonors_eq_foldl {σ : Type} (m : GoMap) (f : Int → GoString → σ → σ) (s : σ) :
    pickTopDonors m 0 f s =
      (pickTopDonorsCalls m 0).foldl (fun s kv => f kv.1 kv.2 s) s := by
  rw [pickTopDonorsCalls_eq]
  unfold pickTopDonors
  simp only [pickLoop_eq, List.foldl_map]
  congr 2
  omega

theorem sortInts_perm (ks : List Int) : (sortInts ks).Perm ks :=
  List.perm_insertionSort _ ks

theorem sortInts_sorted (ks : List Int) : (sortInts ks).Sorted (· ≤ ·) :=
  List.sorted_insertionSort _ ks

theorem calls_keys (m : GoMap) :
    (pickTopDonorsCalls m 0).map Prod.fst = (sortInts (mapKeys m)).drop (m.length - 3) := by
  rw [pickTopDonorsCalls_eq, List.map_map]
  exact List.map_id _

theorem sortInts_length (m : GoMap) : (sortInts (mapKeys m)).length = m.length := by
  rw [(sortInts_perm _).length_eq]
  simp [mapKeys]

/-- Go iterates over a map in an unspecified order; `pickTopDonors` sorts the
keys, so its calls are the same for every order of the entries. -/
theorem pickTopDonorsCalls_perm (m m' : GoMap) (hp : m.Perm m') (hwf : MapWF m) :
    pickTopDonorsCalls m 0 = pickTopDonorsCalls m' 0 := by
  have hkeys : sortInts (mapKeys m) = sortInts (mapKeys m') := by
    apply List.eq_of_perm_of_sorted _ (sortInts_sorted _) (sortInts_sorted _)
    exact (sortInts_perm _).trans ((hp.map Prod.fst).trans (sortInts_perm _).symm)
  rw [pickTopDonorsCalls_eq, pickTopDonorsCalls_eq, hkeys, hp.length_eq]
  apply List.map_congr_left
  intro k _
  simp only [mapIndex, mapGet_perm m m' hp hwf k]

/-! ## `lineCounter` and the scanner -/

theorem lineCounterLoop_fst (r : Reader) (count : Int) :
    (lineCounterLoop r count).1 = count + bytesCount (delivered r) 10 := by
  induction r generalizing count with
  | nil => simp [lineCounterLoop, delivered, bytesCount]
  | cons x rs ih =>
    obtain ⟨data, err⟩ := x
    cases err with
    | none =>
      simp only [lineCounterLoop, delivered, ih, bytesCount, List.count_append]
      push_cast
      ring
    | some e =>
      cases e <;> simp [lineCounterLoop, delivered]

theorem lineCounter_fst (r : Reader) :
    (lineCounter r).1 = bytesCount (delivered r) 10 := by
  rw [lineCounter, lineCounterLoop_fst, zero_add]

theorem flatten_chunksAux (b : Nat) (hb : 1 ≤ b) (fuel : Nat) (s : GoString)
    (h : s.length ≤ fuel) : (chunksAux b fuel s).flatten = s := by
  induction fuel generalizing s with
  | zero =>
    have : s = [] := List.length_eq_zero.mp (by omega)
    subst this
    rfl
  | succ fuel ih =>
    unfold chunksAux
    by_cases hs : s = []
    · simp [hs]
    · rw [if_neg hs, List.flatten_cons, ih]
      · exact List.take_append_drop b s
      · rw [List.length_drop]
        have : 0 < s.length := List.length_pos.mpr hs
        omega

theorem delivered_map_none (chunks : List GoString) :
    delivered (chunks.map fun d => ⟨d, none⟩) = chunks.flatten := by
  induction chunks with
  | nil => rfl
  | cons c cs ih => simp [delivered, ih]

theorem delivered_stringsReader (b : Nat) (hb : 1 ≤ b) (s : GoString) :
    delivered (stringsReader b s) = s := by
  rw [stringsReader, delivered_map_none, flatten_chunksAux b hb _ _ (le_refl _)]

theorem Split_append_sep (sep : Byte) (l rest : GoString) (h : sep ∉ l) :
    Split sep (l ++ sep :: rest) = l :: Split sep rest := by
  induction l with
  | nil => simp [Split]
  | cons c l ih =>
    have hc : ¬ c = sep := fun e => h (e ▸ List.mem_cons_self _ _)
    have hl : sep ∉ l := fun e => h (List.mem_cons_of_mem _ e)
    rw [List.cons_append]
    simp only [Split, hc, if_false, ih hl]

theorem Split_join_lines (lines : List GoString) (h : ∀ l ∈ lines, (10 : Byte) ∉ l) :
    Split 10 (lines.map (· ++ [10])).flatten = lines ++ [[]] := by
  induction lines with
  | nil => rfl
  | cons l ls ih =>
    rw [List.map_cons, List.flatten_cons, List.append_assoc, List.singleton_append,
      Split_append_sep 10 l _ (h l (List.mem_cons_self _ _)),
      ih (fun x hx => h x (List.mem_cons_of_mem _ hx))]
    rfl

theorem scannerLines_join_lines (lines : List GoString) (h : ∀ l ∈ lines, (10 : Byte) ∉ l)
    (hlen : ∀ l ∈ lines, l.length < MaxScanTokenSize) :
    scannerLines (lines.map (· ++ [10])).flatten = lines.map dropCR := by
  unfold scannerLines
  rw [Split_join_lines lines h]
  simp only [List.getLast?_concat, if_true, List.dropLast_concat]
  congr 1
  rw [List.takeWhile_eq_self_iff]
  intro l hl
  simpa using hlen l hl

theorem count_join_lines (lines : List GoString) (h : ∀ l ∈ lines, (10 : Byte) ∉ l) :
    bytesCount (lines.map (· ++ [10])).flatten 10 = lines.length := by
  unfold bytesCount
  induction lines with
  | nil => rfl
  | cons l ls ih =>
    simp only [List.map_cons, List.flatten_cons, List.count_append, List.length_cons]
    rw [ih (fun x hx => h x (List.mem_cons_of_mem _ hx)),
      List.count_eq_zero_of_not_mem (h l (List.mem_cons_self _ _))]
    simp
    omega

theorem long_line_aux (n : Nat) (hn : MaxScanTokenSize ≤ n) :
    (lineCounter (stringsReader (32 * 1024)
      (ascii "h\n" ++ List.replicate n 97 ++ [10]))).1 - 1 = 1 ∧
    ((scannerLines (ascii "h\n" ++ List.replicate n 97 ++ [10])).drop 1).length = 0 := by
  have hin : ascii "h\n" ++ List.replicate n 97 ++ [10]
      = ([[104], List.replicate n (97 : Byte)].map (· ++ [10])).flatten := by
    have : ascii "h\n" = [104, 10] := by decide
    rw [this]
    simp
  have hnl : ∀ l ∈ [[104], List.replicate n (97 : Byte)], (10 : Byte) ∉ l := by
    intro l hl
    simp only [List.mem_cons, List.mem_singleton, List.not_mem_nil, or_false] at hl
    rcases hl with rfl | rfl
    · decide
    · intro h
      exact absurd (List.eq_of_mem_replicate h) (by decide)
  rw [hin]
  constructor
  · rw [lineCounter_fst, delivered_stringsReader _ (by norm_num), count_join_lines _ hnl]
    rfl
  · unfold scannerLines
    rw [Split_join_lines _ hnl]
    have h1 : 1 < MaxScanTokenSize := by decide
    have h2 : ¬ n < MaxScanTokenSize := by omega
    simp [h1, h2, List.takeWhile_cons]

/-! ## `main` -/

theorem main_no_record (gateway : Nat → Client) (decrypted : GoString)
    (h : (scannerLines decrypted).drop 1 = []) :
    main gateway decrypted = .error .nilDereference := by
  unfold main
  simp only [h, dispatchLoop, pure, Except.pure, bind, Except.bind, Promise.Then]
  rfl

theorem GetPromise_ok (client : Client) (str : GoString) (w : Program) (h : SixFields str) :
    GetPromise client str w = .ok (Program.ofShared (w.toShared.after client str)) := by
  unfold GetPromise
  cases hw : w.instancePromise with
  | none =>
    simp only [getInstance, hw, Option.getD, makeDonation_ok _ _ _ h, bind, Except.bind,
      pure, Except.pure, Program.ofShared, Program.toShared, Shared.after]
    simp
  | some p =>
    simp only [getInstance, hw, Option.getD, makeDonation_ok _ _ _ h, bind, Except.bind,
      pure, Except.pure, Program.ofShared, Program.toShared, Shared.after]
    simp

theorem dispatchLoop_ok (gateway : Nat → Client) (recs : List GoString) (i : Nat)
    (b : Bool) (w : Program) (h : ∀ r ∈ recs, SixFields r) :
    dispatchLoop gateway recs i (b, w) =
      .ok (if recs = [] then (b, w)
        else (true, Program.ofShared
          ((withGateway gateway i recs).foldl (fun s r => s.after r.1 r.2) w.toShared))) := by
  induction recs generalizing i b w with
  | nil => rfl
  | cons r rest ih =>
    have h1 := h r (List.mem_cons_self _ _)
    have h2 : ∀ x ∈ rest, SixFields x := fun x hx => h x (List.mem_cons_of_mem _ hx)
    simp only [dispatchLoop, GetPromise_ok _ _ _ h1, bind, Except.bind, ih _ _ _ h2,
      withGateway, List.foldl_cons]
    by_cases hr : rest = []
    · subst hr
      simp [withGateway]
    · simp [hr, Program.toShared, Program.ofShared]

/-- On a header line followed by `n >= 1` record lines with six fields each,
every line ended by a newline and shorter than the scanner's buffer, `main`
dispatches the `n` records and reports the totals of their sequential run;
the average is donated divided by `n`. -/
theorem main_reports (gateway : Nat → Client) (header : GoString) (records : List GoString)
    (hn : records ≠ []) (hmax : (records.length : Int) ≤ maxInt64)
    (hnl : ∀ l ∈ header :: records, (10 : Byte) ∉ l)
    (hlen : ∀ l ∈ header :: records, l.length < MaxScanTokenSize)
    (hsix : ∀ l ∈ records, SixFields (dropCR l)) :
    ∃ s, runBatch (withGateway gateway 0 (records.map dropCR)) Shared.fresh = .ok s ∧
      main gateway ((header :: records).map (· ++ [10])).flatten
        = .ok (records.length,
            { total := s.p.total,
              donated := s.p.donated,
              faulty_donations := subInt64 s.p.total s.p.donated,
              avg := wrapInt64 (Int.tdiv s.p.donated records.length),
              top := pickTopDonors s.top_donors 0 (fun _ v logged => logged ++ [v]) [] }) := by
  have hs := scannerLines_join_lines (header :: records) hnl hlen
  have hsix' : ∀ r ∈ records.map dropCR, SixFields r := by
    intro r hr
    obtain ⟨l, hl, rfl⟩ := List.mem_map.mp hr
    exact hsix l hl
  have hrun : ∀ r ∈ withGateway gateway 0 (records.map dropCR), SixFields r.2 := by
    have : ∀ (i : Nat) (recs : List GoString), (∀ r ∈ recs, SixFields r) →
        ∀ r ∈ withGateway gateway i recs, SixFields r.2 := by
      intro i recs
      induction recs generalizing i with
      | nil => intro _ r hr; simp [withGateway] at hr
      | cons x xs ih =>
        intro hx r hr
        simp only [withGateway, List.mem_cons] at hr
        rcases hr with rfl | hr
        · exact hx _ (List.mem_cons_self _ _)
        · exact ih (i + 1) (fun y hy => hx y (List.mem_cons_of_mem _ hy)) r hr
    exact this 0 _ hsix'
  have hne : records.map dropCR ≠ [] := by simpa using hn
  have hnum : (lineCounter (stringsReader (32 * 1024)
      ((header :: records).map (· ++ [10])).flatten)).1 - 1 = records.length := by
    rw [lineCounter_fst, delivered_stringsReader _ (by norm_num), count_join_lines _ hnl]
    simp
  have hpos : 0 < records.length := List.length_pos.mpr hn
  have hw : wrapInt64 (records.length : Int) = records.length :=
    wrapInt64_of_inInt64 ⟨by unfold minInt64; omega, hmax⟩
  refine ⟨_, runBatch_ok _ _ hrun, ?_⟩
  have hdrop : (scannerLines ((header :: records).map (· ++ [10])).flatten).drop 1
      = records.map dropCR := by
    rw [hs]; rfl
  generalize ((header :: records).map (· ++ [10])).flatten = input at hdrop hnum
  have hz : ¬ (records.length : Int) = 0 := by omega
  unfold main
  simp only [hdrop, hnum, bind, Except.bind]
  rw [dispatchLoop_ok gateway _ 0 false Program.start hsix']
  simp only [hne, if_false, pure, Except.pure, if_true, Program.ofShared, Promise.Then,
    foldl_after_wg, Program.toShared, Program.start, Option.getD, List.length_map, report,
    hnum, hw, hz, divInt64, bind, Except.bind]
  rfl

/-! ## Workers run one after the other -/

theorem get_at {α : Type} (pre : List α) (w : α) (tl : List α) :
    (pre ++ w :: tl).get? pre.length = some w := by
  induction pre with
  | nil => rfl
  | cons a pre ih => simpa using ih

theorem set_at {α : Type} (pre : List α) (w v : α) (tl : List α) :
    (pre ++ w :: tl).set pre.length v = pre ++ v :: tl := by
  induction pre with
  | nil => rfl
  | cons a pre ih => simp [ih]

theorem run_append (a b : List Nat) (c : Conc) :
    Conc.run (a ++ b) c = (Conc.run a c).bind (Conc.run b) := by
  induction a generalizing c with
  | nil => rfl
  | cons i a ih =>
    simp only [List.cons_append, Conc.run]
    cases c.step i with
    | none => rfl
    | some c' => exact ih c'

theorem run_seven (pre tl : List Worker) (w : Worker) (p : Promise) (m : GoMap)
    (hpc : w.pc = .lock) :
    Conc.run (List.replicate 7 pre.length)
        { p := p, top_donors := m, locked := false, workers := pre ++ w :: tl } =
      some { p := { p with total := addInt64 p.total w.requested,
                           donated := addInt64 p.donated w.charged },
             top_donors := mapSet m w.charged w.name,
             locked := false,
             workers := pre ++ { w with pc := .done, reg := p.donated } :: tl } := by
  obtain ⟨pc, name, requested, charged, reg⟩ := w
  simp only at hpc
  subst hpc
  simp only [List.replicate, Conc.run, Conc.step, get_at, set_at, Bool.false_eq_true, if_false]

theorem run_sequential (rest : List (Client × GoString)) (pre : List Worker) (s : Shared) :
    ∃ ws, (∀ w ∈ ws, w.pc = .done) ∧
      Conc.run (sequentialSchedule pre.length rest.length)
          { p := s.p, top_donors := s.top_donors, locked := false,
            workers := pre ++ rest.map (fun r => Worker.ofRecord r.1 r.2) } =
        some { p := (rest.foldl (fun s r => s.after r.1 r.2) s).p,
               top_donors := (rest.foldl (fun s r => s.after r.1 r.2) s).top_donors,
               locked := false,
               workers := pre ++ ws } := by
  induction rest generalizing pre s with
  | nil => exact ⟨[], by simp, rfl⟩
  | cons r rest ih =>
    obtain ⟨ws, hdone, hrun⟩ := ih
      (pre ++ [{ Worker.ofRecord r.1 r.2 with pc := .done, reg := s.p.donated }])
      (s.after r.1 r.2)
    refine ⟨{ Worker.ofRecord r.1 r.2 with pc := .done, reg := s.p.donated } :: ws, ?_, ?_⟩
    · intro w hw
      rcases List.mem_cons.mp hw with rfl | hw
      · rfl
      · exact hdone w hw
    · simp only [List.length_cons, sequentialSchedule, List.map_cons, List.foldl_cons]
      rw [run_append, run_seven pre _ _ s.p s.top_donors rfl]
      simp only [List.length_append, List.length_singleton, List.append_assoc,
        List.singleton_append] at hrun
      exact hrun

/-- Run one after the other, the workers of a batch leave the totals and the
table that the sequential invocations of `makeDonation` leave. -/
theorem sequential_schedule_agrees (batch : List (Client × GoString)) (s s' : Shared)
    (h : runBatch batch s = .ok s') :
    ∃ c, Conc.run (sequentialSchedule 0 batch.length) (Conc.start batch s) = some c ∧
      c.finished = true ∧ c.p = s'.p ∧ c.top_donors = s'.top_donors := by
  obtain ⟨ws, hdone, hrun⟩ := run_sequential batch [] s
  rw [runBatch_eq_foldl batch s s' h]
  refine ⟨_, hrun, ?_, rfl, rfl⟩
  simp only [Conc.finished, List.nil_append, List.all_eq_true, decide_eq_true_eq]
  exact hdone

/-! ## Workers whose updates do not overlap -/

theorem mem_of_get {α : Type} (ws : List α) (i : Nat) (w : α) (h : ws.get? i = some w) :
    w ∈ ws := by
  induction ws generalizing i with
  | nil => simp at h
  | cons a ws ih =>
    cases i with
    | zero =>
      simp only [List.get?_cons_zero, Option.some.injEq] at h
      subst h
      exact List.mem_cons_self _ _
    | succ i =>
      simp only [List.get?_cons_succ] at h
      exact List.mem_cons_of_mem _ (ih i h)

theorem mem_set {α : Type} (ws : List α) (i : Nat) (v x : α) (h : x ∈ ws.set i v) :
    x = v ∨ x ∈ ws := by
  induction ws generalizing i with
  | nil => simp at h
  | cons a ws ih =>
    cases i with
    | zero =>
      simp only [List.set_cons_zero, List.mem_cons] at h
      rcases h with h | h
      · exact Or.inl h
      · exact Or.inr (List.mem_cons_of_mem _ h)
    | succ i =>
      simp only [List.set_cons_succ, List.mem_cons] at h
      rcases h with h | h
      · exact Or.inr (h ▸ List.mem_cons_self _ _)
      · rcases ih i h with h | h
        · exact Or.inl h
        · exact Or.inr (List.mem_cons_of_mem _ h)

theorem sum_map_set {α : Type} (f : α → Int) (ws : List α) (i : Nat) (w v : α)
    (h : ws.get? i = some w) :
    ((ws.set i v).map f).sum = (ws.map f).sum - f w + f v := by
  induction ws generalizing i with
  | nil => simp at h
  | cons a ws ih =>
    cases i with
    | zero =>
      simp only [List.get?_cons_zero, Option.some.injEq] at h
      subst h
      simp only [List.set_cons_zero, List.map_cons, List.sum_cons]
      omega
    | succ i =>
      simp only [List.get?_cons_succ] at h
      simp only [List.set_cons_succ, List.map_cons, List.sum_cons, ih i h]
      omega

theorem countP_set {α : Type} (p : α → Bool) (ws : List α) (i : Nat) (w v : α)
    (h : ws.get? i = some w) :
    (ws.set i v).countP p + (if p w then 1 else 0) = ws.countP p + (if p v then 1 else 0) := by
  induction ws generalizing i with
  | nil => simp at h
  | cons a ws ih =>
    cases i with
    | zero =>
      simp only [List.get?_cons_zero, Option.some.injEq] at h
      subst h
      simp only [List.set_cons_zero, List.countP_cons]
      omega
    | succ i =>
      simp only [List.get?_cons_succ] at h
      have := ih i h
      simp only [List.set_cons_succ, List.countP_cons]
      omega

theorem map_set_same {α β : Type} (f : α → β) (ws : List α) (i : Nat) (w v : α)
    (h : ws.get? i = some w) (hf : f v = f w) : (ws.set i v).map f = ws.map f := by
  induction ws generalizing i with
  | nil => simp at h
  | cons a ws ih =>
    cases i with
    | zero =>
      simp only [List.get?_cons_zero, Option.some.injEq] at h
      subst h
      simp [hf]
    | succ i =>
      simp only [List.get?_cons_succ] at h
      simp [ih i h]

theorem totalInv_update (c : Conc) (i : Nat) (w v : Worker) (p : Promise) (m : GoMap)
    (l : Bool) (hget : c.workers.get? i = some w) (hinv : TotalInv c)
    (htotal : p.total = c.p.total)
    (hpast : (if v.pc.pastTotal then v.requested else 0)
      = (if w.pc.pastTotal then w.requested else 0))
    (hv : v.pc = .storeTotal → v.reg = c.p.total) :
    TotalInv { p := p, top_donors := m, locked := l, workers := c.workers.set i v } := by
  obtain ⟨hsum, hreg⟩ := hinv
  constructor
  · show p.total = _
    rw [htotal, hsum, sum_map_set _ _ i w v hget, hpast]
    congr 1
    omega
  · intro x hx hpc
    show x.reg = p.total
    rw [htotal]
    rcases mem_set _ _ _ _ hx with rfl | hx
    · exact hv hpc
    · exact hreg x hx hpc

theorem totalInv_step (c c' : Conc) (i : Nat) (hinv : TotalInv c) (hex : c.inTotal ≤ 1)
    (hstep : c.step i = some c') : TotalInv c' := by
  unfold Conc.step at hstep
  cases hget : c.workers.get? i with
  | none =>
    rw [hget] at hstep
    cases hstep
  | some w =>
    rw [hget] at hstep
    simp only at hstep
    cases hpc : w.pc <;> rw [hpc] at hstep <;> simp only at hstep
    · by_cases hl : c.locked = true
      · simp [hl] at hstep
      · simp only [hl, Bool.false_eq_true, if_false, Option.some.injEq] at hstep
        subst hstep
        exact totalInv_update c i w _ _ _ _ hget hinv rfl (by simp [hpc, Pc.pastTotal])
          (by simp)
    · simp only [Option.some.injEq] at hstep
      subst hstep
      exact totalInv_update c i w _ _ _ _ hget hinv rfl (by simp [hpc, Pc.pastTotal])
        (by simp)
    · simp only [Option.some.injEq] at hstep
      subst hstep
      exact totalInv_update c i w _ _ _ _ hget hinv rfl (by simp [hpc, Pc.pastTotal])
        (by simp)
    · simp only [Option.some.injEq] at hstep
      subst hstep
      exact totalInv_update c i w _ _ _ _ hget hinv rfl (by simp [hpc, Pc.pastTotal])
        (by simp)
    · simp only [Option.some.injEq] at hstep
      subst hstep
      obtain ⟨hsum, hreg⟩ := hinv
      have hw := hreg w (mem_of_get _ _ _ hget) hpc
      have hcount := countP_set (fun w => decide (w.pc = .storeTotal)) c.workers i w
        { w with pc := .loadDonated } hget
      simp only [hpc, decide_True, if_true] at hcount
      have hzero : (c.workers.set i { w with pc := .loadDonated }).countP
          (fun w => decide (w.pc = .storeTotal)) = 0 := by
        unfold Conc.inTotal at hex
        simp at hcount
        omega
      constructor
      · show addInt64 w.reg w.requested = _
        rw [hw, hsum, sum_map_set _ _ i w _ hget, addInt64, wrapInt64_add_left]
        simp only [hpc, Pc.pastTotal]
        congr 1
        simp
      · intro x hx hxpc
        have := (List.countP_eq_zero.mp hzero) x hx
        simp [hxpc] at this
    · simp only [Option.some.injEq] at hstep
      subst hstep
      exact totalInv_update c i w _ _ _ _ hget hinv rfl (by simp [hpc, Pc.pastTotal])
        (by simp)
    · simp only [Option.some.injEq] at hstep
      subst hstep
      exact totalInv_update c i w _ _ _ _ hget hinv rfl (by simp [hpc, Pc.pastTotal])
        (by simp)
    · simp at hstep

theorem donatedInv_update (c : Conc) (i : Nat) (w v : Worker) (p : Promise) (m : GoMap)
    (l : Bool) (hget : c.workers.get? i = some w) (hinv : DonatedInv c)
    (hdonated : p.donated = c.p.donated)
    (hpast : (if v.pc.pastDonated then v.charged else 0)
      = (if w.pc.pastDonated then w.charged else 0))
    (hv : v.pc = .storeDonated → v.reg = c.p.donated) :
    DonatedInv { p := p, top_donors := m, locked := l, workers := c.workers.set i v } := by
  obtain ⟨hsum, hreg⟩ := hinv
  constructor
  · show p.donated = _
    rw [hdonated, hsum, sum_map_set _ _ i w v hget, hpast]
    congr 1
    omega
  · intro x hx hpc
    show x.reg = p.donated
    rw [hdonated]
    rcases mem_set _ _ _ _ hx with rfl | hx
    · exact hv hpc
    · exact hreg x hx hpc

theorem donatedInv_step (c c' : Conc) (i : Nat) (hinv : DonatedInv c) (hex : c.inDonated ≤ 1)
    (hstep : c.step i = some c') : DonatedInv c' := by
  unfold Conc.step at hstep
  cases hget : c.workers.get? i with
  | none =>
    rw [hget] at hstep
    cases hstep
  | some w =>
    rw [hget] at hstep
    simp only at hstep
    cases hpc : w.pc <;> rw [hpc] at hstep <;> simp only at hstep
    · by_cases hl : c.locked = true
      · simp [hl] at hstep
      · simp only [hl, Bool.false_eq_true, if_false, Option.some.injEq] at hstep
        subst hstep
        exact donatedInv_update c i w _ _ _ _ hget hinv rfl (by simp [hpc, Pc.pastDonated])
          (by simp)
    · simp only [Option.some.injEq] at hstep
      subst hstep
      exact donatedInv_update c i w _ _ _ _ hget hinv rfl (by simp [hpc, Pc.pastDonated])
        (by simp)
    · simp only [Option.some.injEq] at hstep
      subst hstep
      exact donatedInv_update c i w _ _ _ _ hget hinv rfl (by simp [hpc, Pc.pastDonated])
        (by simp)
    · simp only [Option.some.injEq] at hstep
      subst hstep
      exact donatedInv_update c i w _ _ _ _ hget hinv rfl (by simp [hpc, Pc.pastDonated])
        (by simp)
    · simp only [Option.some.injEq] at hstep
      subst hstep
      exact donatedInv_update c i w _ _ _ _ hget hinv rfl (by simp [hpc, Pc.pastDonated])
        (by simp)
    · simp only [Option.some.injEq] at hstep
      subst hstep
      exact donatedInv_update c i w _ _ _ _ hget hinv rfl (by simp [hpc, Pc.pastDonated])
        (by simp)
    · simp only [Option.some.injEq] at hstep
      subst hstep
      obtain ⟨hsum, hreg⟩ := hinv
      have hw := hreg w (mem_of_get _ _ _ hget) hpc
      have hcount := countP_set (fun w => decide (w.pc = .storeDonated)) c.workers i w
        { w with pc := .done } hget
      simp only [hpc, decide_True, if_true] at hcount
      have hzero : (c.workers.set i { w with pc := .done }).countP
          (fun w => decide (w.pc = .storeDonated)) = 0 := by
        unfold Conc.inDonated at hex
        simp at hcount
        omega
      constructor
      · show addInt64 w.reg w.charged = _
        rw [hw, hsum, sum_map_set _ _ i w _ hget, addInt64, wrapInt64_add_left]
        simp only [hpc, Pc.pastDonated]
        congr 1
        simp
      · intro x hx hxpc
        have := (List.countP_eq_zero.mp hzero) x hx
        simp [hxpc] at this
    · simp at hstep

theorem step_amounts (c c' : Conc) (i : Nat) (hstep : c.step i = some c') :
    c'.workers.map (fun w => (w.requested, w.charged))
      = c.workers.map (fun w => (w.requested, w.charged)) := by
  unfold Conc.step at hstep
  cases hget : c.workers.get? i with
  | none =>
    rw [hget] at hstep
    cases hstep
  | some w =>
    rw [hget] at hstep
    simp only at hstep
    cases hpc : w.pc <;> rw [hpc] at hstep <;> simp only at hstep
    · by_cases hl : c.locked = true
      · simp [hl] at hstep
      · simp only [hl, Bool.false_eq_true, if_false, Option.some.injEq] at hstep
        subst hstep
        exact map_set_same _ _ i w _ hget rfl
    all_goals first
      | (simp only [Option.some.injEq] at hstep
         subst hstep
         exact map_set_same _ _ i w _ hget rfl)
      | simp at hstep

theorem run_amounts (sched : List Nat) (c c' : Conc) (hrun : Conc.run sched c = some c') :
    c'.workers.map (fun w => (w.requested, w.charged))
      = c.workers.map (fun w => (w.requested, w.charged)) := by
  induction sched generalizing c with
  | nil =>
    simp only [Conc.run, Option.some.injEq] at hrun
    subst hrun
    rfl
  | cons i rest ih =>
    simp only [Conc.run] at hrun
    cases hstep : c.step i with
    | none => rw [hstep] at hrun; cases hrun
    | some c1 =>
      rw [hstep] at hrun
      rw [ih c1 hrun, step_amounts c c1 i hstep]

theorem totalInv_run (sched : List Nat) (c c' : Conc) (hinv : TotalInv c)
    (hex : Conc.exclusiveTotal sched c = true) (hrun : Conc.run sched c = some c') :
    TotalInv c' := by
  induction sched generalizing c with
  | nil =>
    simp only [Conc.run, Option.some.injEq] at hrun
    subst hrun
    exact hinv
  | cons i rest ih =>
    simp only [Conc.run] at hrun
    simp only [Conc.exclusiveTotal, Bool.and_eq_true, decide_eq_true_eq] at hex
    cases hstep : c.step i with
    | none => rw [hstep] at hrun; cases hrun
    | some c1 =>
      rw [hstep] at hrun hex
      exact ih c1 (totalInv_step c c1 i hinv hex.1 hstep) hex.2 hrun

theorem donatedInv_run (sched : List Nat) (c c' : Conc) (hinv : DonatedInv c)
    (hex : Conc.exclusiveDonated sched c = true) (hrun : Conc.run sched c = some c') :
    DonatedInv c' := by
  induction sched generalizing c with
  | nil =>
    simp only [Conc.run, Option.some.injEq] at hrun
    subst hrun
    exact hinv
  | cons i rest ih =>
    simp only [Conc.run] at hrun
    simp only [Conc.exclusiveDonated, Bool.and_eq_true, decide_eq_true_eq] at hex
    cases hstep : c.step i with
    | none => rw [hstep] at hrun; cases hrun
    | some c1 =>
      rw [hstep] at hrun hex
      exact ih c1 (donatedInv_step c c1 i hinv hex.1 hstep) hex.2 hrun

theorem sum_finished (ws : List Worker) (f : Worker → Int) (past : Pc → Bool)
    (hpast : past .done = true) (hfin : ∀ w ∈ ws, w.pc = .done) :
    (ws.map fun w => if past w.pc then f w else 0).sum = (ws.map f).sum := by
  induction ws with
  | nil => rfl
  | cons w ws ih =>
    have hw := hfin w (List.mem_cons_self _ _)
    simp only [List.map_cons, List.sum_cons, hw, hpast, if_true,
      ih (fun x hx => hfin x (List.mem_cons_of_mem _ hx))]

theorem start_totalInv (batch : List (Client × GoString)) :
    TotalInv (Conc.start batch Shared.fresh) := by
  constructor
  · show (0 : Int) = _
    have : ((Conc.start batch Shared.fresh).workers.map
        fun w => if w.pc.pastTotal then w.requested else 0).sum = 0 := by
      simp only [Conc.start, List.map_map]
      induction batch with
      | nil => rfl
      | cons r rest ih =>
        simp only [List.map_cons, List.sum_cons, ih]
        rfl
    rw [this]
    rfl
  · intro w hw hpc
    simp only [Conc.start, List.mem_map] at hw
    obtain ⟨r, _, rfl⟩ := hw
    cases hpc

theorem start_donatedInv (batch : List (Client × GoString)) :
    DonatedInv (Conc.start batch Shared.fresh) := by
  constructor
  · show (0 : Int) = _
    have : ((Conc.start batch Shared.fresh).workers.map
        fun w => if w.pc.pastDonated then w.charged else 0).sum = 0 := by
      simp only [Conc.start, List.map_map]
      induction batch with
      | nil => rfl
      | cons r rest ih =>
        simp only [List.map_cons, List.sum_cons, ih]
        rfl
    rw [this]
    rfl
  · intro w hw hpc
    simp only [Conc.start, List.mem_map] at hw
    obtain ⟨r, _, rfl⟩ := hw
    cases hpc

/-- After a run in which no two workers were between their read and their
write of `p.total` at the same time, and which every worker has finished,
the total is the `int64` sum of the requested amounts. -/
theorem conc_total (batch : List (Client × GoString)) (sched : List Nat) (c : Conc)
    (hrun : Conc.run sched (Conc.start batch Shared.fresh) = some c)
    (hex : Conc.exclusiveTotal sched (Conc.start batch Shared.fresh) = true)
    (hfin : c.finished = true) :
    c.p.total = sumInt64 (batch.map fun r => requestedAmount r.2) := by
  have hinv := totalInv_run sched _ c (start_totalInv batch) hex hrun
  have hfin' : ∀ w ∈ c.workers, w.pc = .done := by
    simpa [Conc.finished] using hfin
  have hamt := congrArg (List.map Prod.fst) (run_amounts sched _ c hrun)
  simp only [List.map_map, Conc.start] at hamt
  rw [hinv.1, sum_finished c.workers (fun w => w.requested) Pc.pastTotal rfl hfin', sumInt64_eq]
  congr 1
  have h1 : c.workers.map (fun w => w.requested)
      = batch.map (fun r => requestedAmount r.2) := hamt
  rw [h1]

/-- After a run in which no two workers were between their read and their
write of `p.donated` at the same time, and which every worker has finished,
donated is the `int64` sum of the charged amounts. -/
theorem conc_donated (batch : List (Client × GoString)) (sched : List Nat) (c : Conc)
    (hrun : Conc.run sched (Conc.start batch Shared.fresh) = some c)
    (hex : Conc.exclusiveDonated sched (Conc.start batch Shared.fresh) = true)
    (hfin : c.finished = true) :
    c.p.donated = sumInt64 (batch.map fun r => chargedAmount r.1 r.2) := by
  have hinv := donatedInv_run sched _ c (start_donatedInv batch) hex hrun
  have hfin' : ∀ w ∈ c.workers, w.pc = .done := by
    simpa [Conc.finished] using hfin
  have hamt := congrArg (List.map Prod.snd) (run_amounts sched _ c hrun)
  simp only [List.map_map, Conc.start] at hamt
  rw [hinv.1, sum_finished c.workers (fun w => w.charged) Pc.pastDonated rfl hfin', sumInt64_eq]
  congr 1
  have h1 : c.workers.map (fun w => w.charged)
      = batch.map (fun r => chargedAmount r.1 r.2) := hamt
  rw [h1]

/-! # The claims -/

/-! ## C1: the total is the sum of the requested amounts -/

/-- C1 does not hold as stated.  Two records that each request
9223372036854775807 leave total = -2, not their sum; and two workers for the
requested amounts 100 and 200 that both read `p.total` before either writes
it leave total = 200, not 300. -/
theorem total_differs_from_sum :
    (∃ s, runBatch [(rejectAll, ascii "A,9223372036854775807,4111,x,1,2030"),
        (rejectAll, ascii "B,9223372036854775807,4242,x,12,2031")] Shared.fresh = .ok s ∧
      s.p.total = -2 ∧
      ([ascii "A,9223372036854775807,4111,x,1,2030",
        ascii "B,9223372036854775807,4242,x,12,2031"].map requestedAmount).sum
        = 18446744073709551614) ∧
    (∃ c, Conc.run [0, 0, 0, 0, 1, 1, 1, 1, 0, 1, 0, 0, 1, 1]
        (Conc.start [(acceptAll, ascii "A,100,4111,x,1,2030"),
          (acceptAll, ascii "B,200,4242,x,12,2031")] Shared.fresh) = some c ∧
      c.finished = true ∧ c.p.total = 200 ∧
      ([ascii "A,100,4111,x,1,2030", ascii "B,200,4242,x,12,2031"].map requestedAmount).sum
        = 300) :=
  ⟨⟨_, rfl, by decide, by decide⟩, ⟨_, rfl, by decide, by decide, by decide⟩⟩

/-- C1, amended: for every batch of record lines, every gateway behaviour and
every order of processing (`run` lists the records of `batch` in any order,
each with the gateway behaviour it meets), the promise's total after all
records have been processed by `makeDonation` is the sum of the requested
amounts of the batch in `int64` arithmetic, which is their exact sum whenever
that fits in an `int64`; so it is the same for every permutation.  This holds
when the invocations run one after the other, which completes exactly when
each record has the six fields `makeDonation` reads, and when they run, on
records of six fields, as concurrent workers of which no two are between
their read and their write of `p.total` at the same time. -/
theorem total_eq_sum_requested (batch : List GoString) (run : List (Client × GoString))
    (horder : (run.map Prod.snd).Perm batch) :
    ((∃ s, runBatch run Shared.fresh = .ok s) ↔ ∀ str ∈ batch, SixFields str) ∧
    (∀ s, runBatch run Shared.fresh = .ok s →
      s.p.total = sumInt64 (batch.map requestedAmount) ∧
      (InInt64 (batch.map requestedAmount).sum →
        s.p.total = (batch.map requestedAmount).sum)) ∧
    (∀ (sched : List Nat) (c : Conc), (∀ str ∈ batch, SixFields str) →
      Conc.run sched (Conc.start run Shared.fresh) = some c →
      Conc.exclusiveTotal sched (Conc.start run Shared.fresh) = true →
      c.finished = true →
      c.p.total = sumInt64 (batch.map requestedAmount) ∧
      (InInt64 (batch.map requestedAmount).sum →
        c.p.total = (batch.map requestedAmount).sum)) := by
  have hmap : (run.map fun r => requestedAmount r.2)
      = (run.map Prod.snd).map requestedAmount := by
    rw [List.map_map]; rfl
  have hsum : ((run.map fun r => requestedAmount r.2)).sum
      = (batch.map requestedAmount).sum := by
    rw [hmap]
    exact (horder.map requestedAmount).sum_eq
  have hsum64 : sumInt64 (run.map fun r => requestedAmount r.2)
      = sumInt64 (batch.map requestedAmount) := by
    rw [sumInt64_eq, sumInt64_eq, hsum]
  refine ⟨?_, ?_, ?_⟩
  · rw [runBatch_ok_iff]
    constructor
    · intro h str hstr
      obtain ⟨r, hr, rfl⟩ := List.mem_map.mp (horder.mem_iff.mpr hstr)
      exact h r hr
    · intro h r hr
      exact h r.2 (horder.mem_iff.mp (List.mem_map_of_mem Prod.snd hr))
  · intro s hs
    have htotal : s.p.total = sumInt64 (batch.map requestedAmount) := by
      rw [runBatch_eq_foldl run _ s hs, foldl_after_total, ← hsum64]
      rfl
    refine ⟨htotal, fun hin => ?_⟩
    rw [htotal, sumInt64_eq, wrapInt64_of_inInt64 hin]
  · intro sched c _ hrun hex hfin
    have htotal : c.p.total = sumInt64 (batch.map requestedAmount) := by
      rw [conc_total run sched c hrun hex hfin, hsum64]
    refine ⟨htotal, fun hin => ?_⟩
    rw [htotal, sumInt64_eq, wrapInt64_of_inInt64 hin]

/-- C1, amended, at a batch of two records, taken in the other order by two
concurrent workers whose table writes come first and whose updates of the
total do not overlap: one charge succeeds, one fails, and the total is 350. -/
theorem total_eq_sum_requested_witness :
    ([(rejectAll, ascii "B,250,4242,x,12,2031"), (acceptAll, ascii "A,100,4111,x,1,2030")].map
        Prod.snd).Perm [ascii "A,100,4111,x,1,2030", ascii "B,250,4242,x,12,2031"] ∧
    ∃ c, Conc.run [0, 0, 0, 1, 1, 1, 0, 0, 1, 1, 0, 0, 1, 1]
        (Conc.start [(rejectAll, ascii "B,250,4242,x,12,2031"),
          (acceptAll, ascii "A,100,4111,x,1,2030")] Shared.fresh) = some c ∧
      c.p.total = sumInt64 ([ascii "A,100,4111,x,1,2030", ascii "B,250,4242,x,12,2031"].map
        requestedAmount) ∧
      c.p.total = 350 :=
  ⟨by decide, _, rfl,
    ((total_eq_sum_requested [ascii "A,100,4111,x,1,2030", ascii "B,250,4242,x,12,2031"]
      [(rejectAll, ascii "B,250,4242,x,12,2031"), (acceptAll, ascii "A,100,4111,x,1,2030")]
      (by decide)).2.2 [0, 0, 0, 1, 1, 1, 0, 0, 1, 1, 0, 0, 1, 1] _ (by decide) rfl
      (by decide) (by decide)).1, by decide⟩

/-! ## C2: donated and the faulty amount -/

/-- C2 does not hold as stated.  A record that requests -5 and whose charge
fails leaves the faulty amount -5.  A charge call that returns an error after
it has filled the charge with 100 adds 100 to donated.  Two successful
charges of 9223372036854775807 leave donated = -2, not their sum.  Two failed
charges for that amount leave the faulty amount -2.  And two workers with
successful charges of 100 and 200 that both read `p.total` before either
writes it leave total = 200 and donated = 300, a faulty amount of -100. -/
theorem faulty_amount_negative :
    (∃ s, runBatch [(rejectAll, ascii "A,-5,4111,x,1,2030")] Shared.fresh = .ok s ∧
      s.p.total = -5 ∧ s.p.donated = 0 ∧ subInt64 s.p.total s.p.donated < 0) ∧
    (∃ s, runBatch [(failAfterFilling, ascii "A,100,4111,x,1,2030")] Shared.fresh = .ok s ∧
      chargeFailed failAfterFilling (ascii "A,100,4111,x,1,2030") = true ∧
      s.p.donated = 100) ∧
    (∃ s, runBatch [(acceptAll, ascii "A,9223372036854775807,4111,x,1,2030"),
        (acceptAll, ascii "B,9223372036854775807,4242,x,12,2031")] Shared.fresh = .ok s ∧
      s.p.donated = -2 ∧
      chargedAmount acceptAll (ascii "A,9223372036854775807,4111,x,1,2030") +
        chargedAmount acceptAll (ascii "B,9223372036854775807,4242,x,12,2031")
        = 18446744073709551614) ∧
    (∃ s, runBatch [(rejectAll, ascii "A,9223372036854775807,4111,x,1,2030"),
        (rejectAll, ascii "B,9223372036854775807,4242,x,12,2031")] Shared.fresh = .ok s ∧
      chargedAmount rejectAll (ascii "A,9223372036854775807,4111,x,1,2030")
        ≤ requestedAmount (ascii "A,9223372036854775807,4111,x,1,2030") ∧
      chargedAmount rejectAll (ascii "B,9223372036854775807,4242,x,12,2031")
        ≤ requestedAmount (ascii "B,9223372036854775807,4242,x,12,2031") ∧
      s.p.donated = 0 ∧ subInt64 s.p.total s.p.donated = -2) ∧
    (∃ c, Conc.run [0, 0, 0, 0, 1, 1, 1, 1, 0, 1, 0, 0, 1, 1]
        (Conc.start [(acceptAll, ascii "A,100,4111,x,1,2030"),
          (acceptAll, ascii "B,200,4242,x,12,2031")] Shared.fresh) = some c ∧
      c.finished = true ∧ c.p.total = 200 ∧ c.p.donated = 300 ∧
      subInt64 c.p.total c.p.donated = -100) :=
  ⟨⟨_, rfl, by decide, by decide, by decide⟩, ⟨_, rfl, by decide, by decide⟩,
    ⟨_, rfl, by decide, by decide⟩, ⟨_, rfl, by decide, by decide, by decide, by decide⟩,
    ⟨_, rfl, by decide, by decide, by decide, by decide⟩⟩

/-- C2, amended: for every batch of records and every gateway behaviour, let
`p` be the promise after all records have been processed by `makeDonation`,
the invocations running one after the other or as concurrent workers of which
no two are between their read and their write of `p.total`, or of
`p.donated`, at the same time.  Then donated is the sum, in `int64`
arithmetic, of the amounts the charge calls left in `charge.Amount`, which is
the sum of the charged amounts of the records whose charge succeeded when
every failed charge call leaves that amount 0; and the faulty amount
total - donated is the sum, in `int64` arithmetic, of requested minus charged
over the records, and is at least 0 whenever no record is charged more than
it requested and that sum does not exceed the largest `int64`. -/
theorem donated_eq_sum_charged (run : List (Client × GoString)) (p : Promise)
    (hp : (∃ s, runBatch run Shared.fresh = .ok s ∧ s.p = p) ∨
      ((∀ r ∈ run, SixFields r.2) ∧
        ∃ (sched : List Nat) (c : Conc),
          Conc.run sched (Conc.start run Shared.fresh) = some c ∧
          Conc.exclusiveTotal sched (Conc.start run Shared.fresh) = true ∧
          Conc.exclusiveDonated sched (Conc.start run Shared.fresh) = true ∧
          c.finished = true ∧ c.p = p)) :
    p.donated = sumInt64 (run.map fun r => chargedAmount r.1 r.2) ∧
    ((∀ r ∈ run, chargeFailed r.1 r.2 = true → chargedAmount r.1 r.2 = 0) →
      p.donated = sumInt64 (run.map fun r => succeededAmount r.1 r.2)) ∧
    subInt64 p.total p.donated =
      wrapInt64 (run.map fun r => requestedAmount r.2 - chargedAmount r.1 r.2).sum ∧
    ((∀ r ∈ run, chargedAmount r.1 r.2 ≤ requestedAmount r.2) →
      (run.map fun r => requestedAmount r.2 - chargedAmount r.1 r.2).sum ≤ maxInt64 →
      0 ≤ subInt64 p.total p.donated) := by
  rcases hp with ⟨s, hs, rfl⟩ | ⟨_, sched, c, hrun, hext, hexd, hfin, rfl⟩
  · apply report_facts
    · rw [runBatch_eq_foldl run _ s hs, foldl_after_total]; rfl
    · rw [runBatch_eq_foldl run _ s hs, foldl_after_donated]; rfl
  · exact report_facts run _ _ (conc_total run sched c hrun hext hfin)
      (conc_donated run sched c hrun hexd hfin)

/-- C2, amended, at two concurrent workers, one successful and one failed
charge, whose table writes come first and whose updates of the totals do not
overlap: donated is 100 and the faulty amount is 250. -/
theorem donated_eq_sum_charged_witness :
    ∃ c, Conc.run [0, 0, 0, 1, 1, 1, 0, 0, 1, 1, 0, 0, 1, 1]
        (Conc.start [(acceptAll, ascii "A,100,4111,x,1,2030"),
          (rejectAll, ascii "B,250,4242,x,12,2031")] Shared.fresh) = some c ∧
      c.p.donated = sumInt64 [100, 0] ∧ c.p.donated = 100 ∧
      subInt64 c.p.total c.p.donated = 250 ∧ 0 ≤ subInt64 c.p.total c.p.donated :=
  ⟨_, rfl,
    (donated_eq_sum_charged [(acceptAll, ascii "A,100,4111,x,1,2030"),
      (rejectAll, ascii "B,250,4242,x,12,2031")] _
      (Or.inr ⟨by decide, [0, 0, 0, 1, 1, 1, 0, 0, 1, 1, 0, 0, 1, 1], _, rfl, by decide,
        by decide, by decide, rfl⟩)).1,
    by decide, by decide,
    (donated_eq_sum_charged [(acceptAll, ascii "A,100,4111,x,1,2030"),
      (rejectAll, ascii "B,250,4242,x,12,2031")] _
      (Or.inr ⟨by decide, [0, 0, 0, 1, 1, 1, 0, 0, 1, 1, 0, 0, 1, 1], _, rfl, by decide,
        by decide, by decide, rfl⟩)).2.2.2 (by decide) (by decide)⟩

/-! ## C3: concurrent updates of the totals -/

/-- C3 fails on the code: only the table write is between `Lock` and
`Unlock`.  Two workers, for requested amounts 100 and 200, that both read
`p.total` before either writes it end with total = 200, while the two
invocations run one after the other give 300. -/
theorem lost_update_on_total :
    (∃ c, Conc.run [0, 0, 0, 0, 1, 1, 1, 1, 0, 1, 0, 0, 1, 1]
        (Conc.start [(acceptAll, ascii "A,100,4111,x,1,2030"),
          (acceptAll, ascii "B,200,4242,x,12,2031")] Shared.fresh) = some c ∧
      c.finished = true ∧ c.p.total = 200) ∧
    (∃ s, runBatch [(acceptAll, ascii "A,100,4111,x,1,2030"),
        (acceptAll, ascii "B,200,4242,x,12,2031")] Shared.fresh = .ok s ∧
      s.p.total = 300) :=
  ⟨⟨_, rfl, by decide, by decide⟩, ⟨_, rfl, by decide⟩⟩

/-! ## C4: a failed `CreateToken` -/

/-- C4 fails on the code: for a record whose `CreateToken` call fails,
`makeDonation` goes on to send a `CreateCharge` request, for the amount 100
and with an empty card. -/
theorem charge_sent_after_failed_token :
    (rejectAll.DoCreateToken (tokenRequest (ascii "A,100,4111,x,1,2030"))).failed = true ∧
    makeDonation rejectAll (ascii "A,100,4111,x,1,2030") Shared.fresh =
      .ok { p := ⟨0, 100, 0⟩,
            top_donors := [(0, ascii "A")],
            gateway := [.createToken ⟨ascii "A", ascii "4111", 1, 2030⟩,
                        .createCharge ⟨100, ascii "thb", []⟩] } :=
  ⟨rfl, by decide⟩

/-! ## C5: malformed records -/

/-- C5 does not hold as stated.  On the empty line `makeDonation` fails with
`index out of range [1] with length 1`, on a line of five fields with
`index out of range [5] with length 5`.  A record of six fields is handed to
the gateway whatever its fields hold: with an amount field that is not a
number, or with expiry fields that are not numbers, a gateway that charges
what it is asked adds 9223372036854775807, or 100, to donated. -/
theorem makeDonation_malformed_record :
    makeDonation acceptAll (ascii "") Shared.fresh = .error (.indexOutOfRange 1 1) ∧
    makeDonation acceptAll (ascii "A,100,4111,x,1") Shared.fresh
      = .error (.indexOutOfRange 5 5) ∧
    (∃ s, makeDonation acceptAll (ascii "A,99999999999999999999x,4111,x,1,2030")
        Shared.fresh = .ok s ∧
      s.p.total = 9223372036854775807 ∧ s.p.donated = 9223372036854775807) ∧
    (∃ s, makeDonation acceptAll (ascii "A,100,4111,x,Jan,next") Shared.fresh = .ok s ∧
      s.p.donated = 100) :=
  ⟨by decide, by decide, ⟨_, rfl, by decide, by decide⟩, ⟨_, rfl, by decide⟩⟩

/-- C5, amended: for every record with at least six comma-separated fields,
whatever the fields hold, `makeDonation` completes without a run-time
failure; it adds to total the amount `strconv.ParseInt` returns for field 1,
which is 0 when it reports a syntax error, and adds to donated the amount the
charge call left in `charge.Amount`, which leaves donated as it was when that
amount is 0.  So a batch of such records is processed to its end. -/
theorem makeDonation_completes_on_six_fields :
    (∀ (client : Client) (str : GoString) (s : Shared), SixFields str →
      ∃ s', makeDonation client str s = .ok s' ∧
        s'.p.total = addInt64 s.p.total (ParseInt (field str 1)).1 ∧
        ((ParseInt (field str 1)).2 = some .ErrSyntax → (ParseInt (field str 1)).1 = 0) ∧
        s'.p.donated = addInt64 s.p.donated (chargedAmount client str) ∧
        (chargedAmount client str = 0 → InInt64 s.p.donated →
          s'.p.donated = s.p.donated)) ∧
    (∀ (run : List (Client × GoString)) (s : Shared), (∀ r ∈ run, SixFields r.2) →
      ∃ s', runBatch run s = .ok s') := by
  constructor
  · intro client str s hsix
    refine ⟨_, makeDonation_ok client str s hsix, rfl, ParseInt_syntax_zero _, rfl, ?_⟩
    intro hc hin
    show addInt64 s.p.donated (chargedAmount client str) = _
    rw [hc, addInt64, add_zero, wrapInt64_of_inInt64 hin]
  · intro run s hsix
    exact ⟨_, runBatch_ok run s hsix⟩

/-- C5, amended, at a record of six fields none of which is a number, with a
gateway that rejects it: total and donated stay 0. -/
theorem makeDonation_completes_on_six_fields_witness :
    SixFields (ascii "A,lots,4111,x,Jan,next") ∧
    ∃ s', makeDonation rejectAll (ascii "A,lots,4111,x,Jan,next") Shared.fresh = .ok s' ∧
      s'.p.total = 0 ∧ s'.p.donated = 0 := by
  refine ⟨by decide, ?_⟩
  obtain ⟨s', hs, ht, hz, _, hd⟩ := makeDonation_completes_on_six_fields.1 rejectAll
    (ascii "A,lots,4111,x,Jan,next") Shared.fresh (by decide)
  refine ⟨s', hs, ?_, hd rfl (by decide)⟩
  rw [ht, hz (by decide)]
  decide

/-! ## C6: input without records -/

/-- C6 fails on the code: for an input that holds the header line only (with
or without its newline) or nothing at all, `main` dispatches no worker, its
variable `p` stays nil and `p.Then` fails with a nil pointer dereference; and
for the header line with its newline the divisor `numlines - 1` is 0, so the
callback itself would divide by zero. -/
theorem main_zero_records_fault :
    (scannerLines (ascii "name,amount\n")).drop 1 = [] ∧
    main (fun _ => acceptAll) (ascii "name,amount\n") = .error .nilDereference ∧
    main (fun _ => acceptAll) (ascii "name,amount") = .error .nilDereference ∧
    main (fun _ => acceptAll) (ascii "") = .error .nilDereference ∧
    report (lineCounter (stringsReader (32 * 1024) (ascii "name,amount\n"))).1 [] 0 0
      = .error .divideByZero :=
  ⟨by decide, by decide, by decide, by decide, by decide⟩

/-! ## C7: the top three donors -/

/-- C7: for every ranking table `m`, `pickTopDonors(m, 0, f)` invokes `f` on
the list `pickTopDonorsCalls m 0` of pairs and on nothing else; that list has
`min(3, |m|)` entries, names no key twice, pairs each key with the donor name
stored under it, and every key of `m` left out is smaller than every key
called; for `{100:A, 200:B, 300:C, 400:D}` the calls are for B, C and D. -/
theorem pickTopDonors_three_largest (m : GoMap) (h : MapWF m) :
    (∀ (σ : Type) (f : Int → GoString → σ → σ) (s : σ),
      pickTopDonors m 0 f s =
        (pickTopDonorsCalls m 0).foldl (fun s kv => f kv.1 kv.2 s) s) ∧
    (pickTopDonorsCalls m 0).length = min 3 m.length ∧
    ((pickTopDonorsCalls m 0).map Prod.fst).Nodup ∧
    (∀ kv ∈ pickTopDonorsCalls m 0, mapGet m kv.1 = some kv.2) ∧
    (∀ k ∈ mapKeys m, k ∉ (pickTopDonorsCalls m 0).map Prod.fst →
      ∀ k' ∈ (pickTopDonorsCalls m 0).map Prod.fst, k < k') ∧
    pickTopDonorsCalls
        [(300, ascii "C"), (100, ascii "A"), (400, ascii "D"), (200, ascii "B")] 0
      = [(200, ascii "B"), (300, ascii "C"), (400, ascii "D")] := by
  have hperm := sortInts_perm (mapKeys m)
  have hlen := sortInts_length m
  refine ⟨fun σ f s => pickTopDonors_eq_foldl m f s, ?_, ?_, ?_, ?_, by decide⟩
  · rw [← List.length_map (pickTopDonorsCalls m 0) Prod.fst, calls_keys, List.length_drop, hlen]
    omega
  · rw [calls_keys]
    exact (hperm.nodup_iff.mpr h).sublist (List.drop_sublist _ _)
  · intro kv hkv
    rw [pickTopDonorsCalls_eq, List.mem_map] at hkv
    obtain ⟨k, hk, rfl⟩ := hkv
    exact mapGet_of_mem_keys m k (hperm.mem_iff.mp (List.mem_of_mem_drop hk))
  · rw [calls_keys]
    intro k hk hnot k' hk'
    have hsorted := sortInts_sorted (mapKeys m)
    have hk1 : k ∈ sortInts (mapKeys m) := hperm.mem_iff.mpr hk
    rw [← List.take_append_drop (m.length - 3) (sortInts (mapKeys m))] at hk1 hsorted
    rcases List.mem_append.mp hk1 with hk1 | hk1
    · have hle : k ≤ k' := (List.pairwise_append.mp hsorted).2.2 k hk1 k' hk'
      have hne : k ≠ k' := fun e => hnot (e ▸ hk')
      omega
    · exact absurd hk1 hnot

/-- C7 at a table of two entries: both are called. -/
theorem pickTopDonors_three_largest_witness :
    MapWF [(500, ascii "E"), (100, ascii "A")] ∧
    (pickTopDonorsCalls [(500, ascii "E"), (100, ascii "A")] 0).length = min 3 2 :=
  ⟨by decide, (pickTopDonors_three_largest [(500, ascii "E"), (100, ascii "A")] (by decide)).2.1⟩

/-! ## C8: last writer wins in the ranking table -/

/-- C8: for every sequence of `makeDonation` invocations, started on any
ranking table, the table afterwards holds at most one donor name per charged
amount, and the name under amount `k` is that of the last processed record
charged `k` (the earlier entry when there is none); and after two donors with
different names are both charged 500, the name of the one processed last is
present in the table and the name of the other is not. -/
theorem ranking_last_writer_wins :
    (∀ (run : List (Client × GoString)) (s s' : Shared), MapWF s.top_donors →
      runBatch run s = .ok s' →
      (∀ k v w, (k, v) ∈ s'.top_donors → (k, w) ∈ s'.top_donors → v = w) ∧
      (∀ k, mapGet s'.top_donors k =
        match lastCharged run k with
        | some r => some (donorName r.2)
        | none => mapGet s.top_donors k)) ∧
    (∀ (ca cb : Client) (a b : GoString) (s' : Shared),
      runBatch [(ca, a), (cb, b)] Shared.fresh = .ok s' →
      chargedAmount ca a = 500 → chargedAmount cb b = 500 → donorName a ≠ donorName b →
      Present s'.top_donors (donorName b) ∧ ¬ Present s'.top_donors (donorName a)) := by
  constructor
  · intro run s s' hwf hrun
    rw [runBatch_eq_foldl run s s' hrun]
    refine ⟨?_, foldl_after_mapGet run s⟩
    intro k v w hv hw
    have hwf' := foldl_after_top_donors_wf run s hwf
    have h1 := mapGet_of_mem _ hwf' k v hv
    have h2 := mapGet_of_mem _ hwf' k w hw
    rw [h1] at h2
    exact Option.some.inj h2
  · intro ca cb a b s' hrun hca hcb hne
    rw [runBatch_eq_foldl _ _ s' hrun]
    constructor
    · refine ⟨500, ?_⟩
      rw [foldl_after_mapGet]
      simp [lastCharged, hca, hcb]
    · rintro ⟨k, hk⟩
      rw [foldl_after_mapGet] at hk
      by_cases h5 : k = 500
      · subst h5
        simp [lastCharged, hca, hcb] at hk
        exact hne hk.symm
      · have h5' : ¬ (500 : Int) = k := fun e => h5 e.symm
        simp [lastCharged, hca, hcb, h5', Shared.fresh, mapGet] at hk

/-- C8 at two donors charged 500 each: only the second is in the table. -/
theorem ranking_last_writer_wins_witness :
    ∃ s', runBatch [(acceptAll, ascii "A,500,4111,x,1,2030"),
        (acceptAll, ascii "B,500,4242,x,12,2031")] Shared.fresh = .ok s' ∧
      s'.top_donors = [(500, ascii "B")] ∧
      Present s'.top_donors (donorName (ascii "B,500,4242,x,12,2031")) ∧
      ¬ Present s'.top_donors (donorName (ascii "A,500,4111,x,1,2030")) :=
  ⟨_, rfl, by decide,
    ranking_last_writer_wins.2 acceptAll acceptAll (ascii "A,500,4111,x,1,2030")
      (ascii "B,500,4242,x,12,2031") _ rfl (by decide) (by decide) (by decide)⟩

/-! ## C9: the divisor of the average -/

/-- C9 does not hold as stated: for a header line followed by one record line
of 65536 bytes, both ended by a newline, `lineCounter` gives 2, so the
divisor is 1, but the scanner stops at the record line, which does not fit
its buffer, and the loop dispatches no line. -/
theorem long_line_not_dispatched :
    (lineCounter (stringsReader (32 * 1024)
      (ascii "h\n" ++ List.replicate 65536 97 ++ [10]))).1 - 1 = 1 ∧
    ((scannerLines (ascii "h\n" ++ List.replicate 65536 97 ++ [10])).drop 1).length = 0 :=
  long_line_aux 65536 (by decide)

/-- C9, amended: for every input made of a header line followed by record
lines, every line ended by a newline and shorter than the scanner's buffer of
65536 bytes, the divisor of the average, `lineCounter(input) - 1`, is the
number of record lines, and that is the number of lines the scanner loop
dispatches after the header; and whatever the way a reader splits the input
into reads, `lineCounter` returns the number of newline bytes. -/
theorem divisor_eq_dispatched (header : GoString) (records : List GoString)
    (hnl : ∀ l ∈ header :: records, (10 : Byte) ∉ l)
    (hlen : ∀ l ∈ header :: records, l.length < MaxScanTokenSize) :
    (lineCounter (stringsReader (32 * 1024)
      ((header :: records).map (· ++ [10])).flatten)).1 - 1 = records.length ∧
    (scannerLines ((header :: records).map (· ++ [10])).flatten).drop 1
      = records.map dropCR ∧
    ((scannerLines ((header :: records).map (· ++ [10])).flatten).drop 1).length
      = records.length ∧
    (∀ r : Reader, delivered r = ((header :: records).map (· ++ [10])).flatten →
      (lineCounter r).1 = bytesCount ((header :: records).map (· ++ [10])).flatten 10) := by
  have hs := scannerLines_join_lines (header :: records) hnl hlen
  refine ⟨?_, ?_, ?_, ?_⟩
  · rw [lineCounter_fst, delivered_stringsReader _ (by norm_num), count_join_lines _ hnl]
    simp
  · rw [hs]; rfl
  · rw [hs]; simp
  · intro r hr
    rw [lineCounter_fst, hr]

/-- C9, amended, at a header line and two record lines: the divisor is 2. -/
theorem divisor_eq_dispatched_witness :
    (∀ l ∈ [ascii "name,amount", ascii "A,100,4111,x,1,2030", ascii "B,250,4242,x,12,2031"],
      (10 : Byte) ∉ l) ∧
    (lineCounter (stringsReader (32 * 1024)
      ([ascii "name,amount", ascii "A,100,4111,x,1,2030", ascii "B,250,4242,x,12,2031"].map
        (· ++ [10])).flatten)).1 - 1 = 2 :=
  ⟨by decide,
    (divisor_eq_dispatched (ascii "name,amount")
      [ascii "A,100,4111,x,1,2030", ascii "B,250,4242,x,12,2031"]
      (by decide) (by decide)).1⟩

/-! ## C10: failed charges in the ranking -/

/-- C10: a record with six fields whose charge does not succeed, the charge
amount staying 0, is still written into the ranking table, under key 0; and
for the batch of one failed donation and one successful charge of 200,
`pickTopDonors` reports the donor who was charged nothing. -/
theorem failed_charge_is_ranked :
    (∀ (client : Client) (str : GoString) (s : Shared), SixFields str →
      chargedAmount client str = 0 →
      ∃ s', makeDonation client str s = .ok s' ∧
        mapGet s'.top_donors 0 = some (donorName str)) ∧
    (∃ s, runBatch [(rejectAll, ascii "A,100,4111,x,1,2030"),
        (acceptAll, ascii "B,200,4242,x,12,2031")] Shared.fresh = .ok s ∧
      s.p.donated = 200 ∧
      pickTopDonorsCalls s.top_donors 0 = [(0, ascii "A"), (200, ascii "B")]) := by
  constructor
  · intro client str s hsix hc
    refine ⟨_, makeDonation_ok client str s hsix, ?_⟩
    show mapGet (mapSet s.top_donors (chargedAmount client str) (donorName str)) 0 = _
    rw [mapGet_mapSet, if_pos hc]
  · exact ⟨_, rfl, by decide, by decide⟩

/-- C10 at a record whose card is rejected. -/
theorem failed_charge_is_ranked_witness :
    SixFields (ascii "A,100,4111,x,1,2030") ∧
    chargeFailed rejectAll (ascii "A,100,4111,x,1,2030") = true ∧
    chargedAmount rejectAll (ascii "A,100,4111,x,1,2030") = 0 ∧
    ∃ s', makeDonation rejectAll (ascii "A,100,4111,x,1,2030") Shared.fresh = .ok s' ∧
      mapGet s'.top_donors 0 = some (donorName (ascii "A,100,4111,x,1,2030")) :=
  ⟨by decide, rfl, rfl,
    failed_charge_is_ranked.1 rejectAll (ascii "A,100,4111,x,1,2030") Shared.fresh
      (by decide) rfl⟩

end Tamboon
